import Mathlib

set_option linter.dupNamespace false
set_option linter.unnecessarySeqFocus false

/-!
Verification of the letpl compilation and execution pipeline.

The development shallowly embeds three source files of the repository:

* `src/runtime.rs` — the stack-based virtual machine (`Value`, `Op`, `run`);
* `src/compiler.rs` — the bytecode compiler (`CompilerState`, `Chunk`,
  `compile_expr`);
* `src/name_analysis.rs` — the name resolver / closure converter
  (`resolve_names_expr`), whose `CompilerState` is textually identical to
  the compiler's.

Rust `usize` values become `Nat`; `Vec` becomes `List`; `Rc` sharing is
dropped (all the shared data is immutable, so sharing is unobservable);
fallible Rust code returning `Result<_, String>` is embedded in an
error monad, and Rust panics (out-of-bounds indexing, `usize` underflow)
are modelled as a distinguished `crash` outcome.
-/

namespace Letpl

/-! ## Values and operations, from `src/runtime.rs`

`Value` inlines the Rust `Procedure { start: Address, captures: Rc<Vec<Value>> }`
object into its `Procedure` variant; `Address` is a newtype of `usize` and is
embedded as a plain `Nat`. -/

/-- Run-time values (`runtime.rs`, `enum Value`). -/
inductive Value where
  | Integer (x : Int)
  | Boolean (b : Bool)
  | Procedure (start : Nat) (captures : List Value)

/-- Capture recipe entries (`src/offset.rs`, `enum Capture`); the
`StackOffset` / `CaptureOffset` newtypes are embedded as `Nat`. -/
inductive Capture where
  | Local (k : Nat)
  | Capture (k : Nat)
deriving DecidableEq

/-- VM operations (`runtime.rs`, `enum Op`). -/
inductive Op where
  | Assert (line : Nat)
  | Call
  | Diff
  | IsZero
  | Jump (address : Nat)
  | JumpTrue (address : Nat)
  | MakeProc (start : Nat) (captures : List Capture)
  | Negate
  | PushCapture (k : Nat)
  | PushGlobal (k : Nat)
  | PushLocal (k : Nat)
  | PushValue (v : Value)
  | Return
  | TailCall

/-- Outcome of a fallible VM step: `ok` and `err` mirror Rust's
`Result<_, String>`; `crash` marks a Rust panic (the `Vec` indexing in
`ValueStack::value_at`, slice indexing of the captures vector, or a
`usize` subtraction underflow). -/
inductive Vm (α : Type) where
  | ok (a : α)
  | err (msg : String)
  | crash

/-- `Value::as_int` (`runtime.rs`). -/
def Value.as_int : Value → Vm Int
  | .Integer x => .ok x
  | _ => .err "value is not an integer"

/-- `Value::as_bool` (`runtime.rs`). -/
def Value.as_bool : Value → Vm Bool
  | .Boolean b => .ok b
  | _ => .err "value is not a boolean"

/-- `Value::as_proc` (`runtime.rs`); the procedure is returned as its
start address and captures. -/
def Value.as_proc : Value → Vm (Nat × List Value)
  | .Procedure s c => .ok (s, c)
  | _ => .err "value is not a procedure"

/-! The value stack (`runtime.rs`, `struct ValueStack`) is a `Vec<Value>`
pushed and popped at the end; we embed it as a `List Value` whose head is
the **bottom** of the stack, so Rust's absolute index `i` is list index
`i`, `push` appends at the end, and `pop` removes the last element. -/

/-- `ValueStack::pop`: remove and return the last element, or report
`stack underflow`. -/
def stackPop (s : List Value) : Vm (Value × List Value) :=
  match s.getLast? with
  | some v => .ok (v, s.dropLast)
  | none => .err "stack underflow"

/-- `ValueStack::pop_to`: pop down to height `base`. The Rust loop pops
exactly `len - base` times (the range `base..top` is computed from the
current length), so its `stack underflow` branch is unreachable and the
function is total truncation; `base > len` gives the empty range, a
no-op, exactly as `List.take` behaves. -/
def stackPopTo (s : List Value) (base : Nat) : List Value :=
  s.take base

/-- `ValueStack::value_at(base, offset)`: direct `Vec` indexing at
`base + offset`; out of range is a Rust panic, embedded as `crash`. -/
def stackValueAt (s : List Value) (base offset : Nat) : Vm Value :=
  match s.get? (base + offset) with
  | some v => .ok v
  | none => .crash

/-- `ValueStack::pop_int` = `pop` then `as_int`. -/
def stackPopInt (s : List Value) : Vm (Int × List Value) :=
  match stackPop s with
  | .ok (v, s') =>
    match v.as_int with
    | .ok x => .ok (x, s')
    | .err m => .err m
    | .crash => .crash
  | .err m => .err m
  | .crash => .crash

/-- `ValueStack::pop_bool` = `pop` then `as_bool`. -/
def stackPopBool (s : List Value) : Vm (Bool × List Value) :=
  match stackPop s with
  | .ok (v, s') =>
    match v.as_bool with
    | .ok b => .ok (b, s')
    | .err m => .err m
    | .crash => .crash
  | .err m => .err m
  | .crash => .crash

/-- A call-stack frame (`runtime.rs`, `struct Frame`). -/
structure Frame where
  next_op : Nat
  stack_base : Nat
  captures : List Value

/-- The mutable state of `runtime::run`: the value stack, the call stack
(head = innermost frame, matching `Vec::push`/`pop` at the end), and the
three loop registers `next_op`, `stack_base`, `captures`. -/
structure VMState where
  stack : List Value
  call_stack : List Frame
  next_op : Nat
  stack_base : Nat
  captures : List Value

/-- Capture materialization performed by `Op::MakeProc` (`runtime.rs`):
each `Capture::Local(k)` reads `stack[stack_base + k]`, each
`Capture::Capture(k)` reads `captures[k]`; either indexing panics
(`crash`) when out of range, as in Rust. -/
def materialize (s : VMState) : List Capture → Vm (List Value)
  | [] => .ok []
  | Capture.Local k :: rest =>
    match stackValueAt s.stack s.stack_base k with
    | .ok v =>
      match materialize s rest with
      | .ok vs => .ok (v :: vs)
      | .err m => .err m
      | .crash => .crash
    | .err m => .err m
    | .crash => .crash
  | Capture.Capture k :: rest =>
    match s.captures.get? k with
    | some v =>
      match materialize s rest with
      | .ok vs => .ok (v :: vs)
      | .err m => .err m
      | .crash => .crash
    | none => .crash

/-- One dispatch of the `match op` in `runtime::run`. The state passed
in already has `next_op` incremented by the fetch (`Address::lookup`
increments before the dispatch). `Op::Call` computes
`stack.len() - 2`, a `usize` underflow panic when fewer than two values
are on the stack, hence `crash` there. `Op::Return` computes
`stack.len() - 1` for `value_at`, likewise a panic on the empty stack. -/
def execOp (op : Op) (s : VMState) : Vm VMState :=
  match op with
  | .Assert line =>
    match stackPopBool s.stack with
    | .ok (b, st) =>
      if b then .ok { s with stack := st }
      else .err ("Assert at line " ++ toString line)
    | .err m => .err m
    | .crash => .crash
  | .Call =>
    if s.stack.length < 2 then .crash
    else
      let frame : Frame := ⟨s.next_op, s.stack_base, s.captures⟩
      let base := s.stack.length - 2
      match stackValueAt s.stack base 0 with
      | .ok v =>
        match v.as_proc with
        | .ok (pstart, pcaps) =>
          .ok { s with call_stack := frame :: s.call_stack,
                       stack_base := base, next_op := pstart,
                       captures := pcaps }
        | .err m => .err m
        | .crash => .crash
      | .err m => .err m
      | .crash => .crash
  | .Diff =>
    match stackPopInt s.stack with
    | .ok (x2, st1) =>
      match stackPopInt st1 with
      | .ok (x1, st2) => .ok { s with stack := st2 ++ [Value.Integer (x1 - x2)] }
      | .err m => .err m
      | .crash => .crash
    | .err m => .err m
    | .crash => .crash
  | .IsZero =>
    match stackPopInt s.stack with
    | .ok (x, st) => .ok { s with stack := st ++ [Value.Boolean (x == 0)] }
    | .err m => .err m
    | .crash => .crash
  | .Jump address => .ok { s with next_op := address }
  | .JumpTrue address =>
    match stackPopBool s.stack with
    | .ok (b, st) =>
      if b then .ok { s with stack := st, next_op := address }
      else .ok { s with stack := st }
    | .err m => .err m
    | .crash => .crash
  | .MakeProc start capture_ops =>
    match materialize s capture_ops with
    | .ok vs => .ok { s with stack := s.stack ++ [Value.Procedure start vs] }
    | .err m => .err m
    | .crash => .crash
  | .Negate =>
    match stackPopInt s.stack with
    | .ok (x, st) => .ok { s with stack := st ++ [Value.Integer (-x)] }
    | .err m => .err m
    | .crash => .crash
  | .PushCapture k =>
    match s.captures.get? k with
    | some v => .ok { s with stack := s.stack ++ [v] }
    | none => .crash
  | .PushGlobal k =>
    match stackValueAt s.stack k 0 with
    | .ok v => .ok { s with stack := s.stack ++ [v] }
    | .err m => .err m
    | .crash => .crash
  | .PushLocal k =>
    match stackValueAt s.stack s.stack_base k with
    | .ok v => .ok { s with stack := s.stack ++ [v] }
    | .err m => .err m
    | .crash => .crash
  | .PushValue v => .ok { s with stack := s.stack ++ [v] }
  | .Return =>
    if s.stack.length = 0 then .crash
    else
      match stackValueAt s.stack (s.stack.length - 1) 0 with
      | .ok ret =>
        let st := stackPopTo s.stack s.stack_base ++ [ret]
        match s.call_stack with
        | [] => .err "call stack underflow"
        | f :: rest =>
          .ok { stack := st, call_stack := rest, next_op := f.next_op,
                stack_base := f.stack_base, captures := f.captures }
      | .err m => .err m
      | .crash => .crash
  | .TailCall =>
    match stackPop s.stack with
    | .ok (argument, st1) =>
      match stackPop st1 with
      | .ok (procv, st2) =>
        let st3 := stackPopTo st2 s.stack_base
        match procv.as_proc with
        | .ok (pstart, pcaps) =>
          .ok { s with stack := st3 ++ [procv, argument],
                       next_op := pstart, captures := pcaps }
        | .err m => .err m
        | .crash => .crash
      | .err m => .err m
      | .crash => .crash
    | .err m => .err m
    | .crash => .crash

/-- Final outcome of `runtime::run`, plus `timeout` for fuel
exhaustion of the embedding (the Rust loop has no fuel). -/
inductive RunOut where
  | ok (v : Value)
  | err (msg : String)
  | crash
  | timeout

/-- The `while let Some(op) = next_op.lookup(program)` loop of
`runtime::run`: fetch, increment `next_op`, dispatch; when the fetch
falls off the end of the program, return `stack.pop()`. -/
def runLoop (program : List Op) : Nat → VMState → RunOut
  | 0, _ => .timeout
  | fuel + 1, s =>
    match program.get? s.next_op with
    | none =>
      match s.stack.getLast? with
      | some v => .ok v
      | none => .err "stack underflow"
    | some op =>
      match execOp op { s with next_op := s.next_op + 1 } with
      | .ok s' => runLoop program fuel s'
      | .err m => .err m
      | .crash => .crash

/-- The initial machine state of `runtime::run`: empty stacks, `next_op
= 0`, `stack_base = 0`, empty captures. -/
def initState : VMState := ⟨[], [], 0, 0, []⟩

/-- `runtime::run`, with fuel. -/
def run (fuel : Nat) (program : List Op) : RunOut :=
  runLoop program fuel initState

/-! ## Helper lemmas about the value stack -/

/-- Popping a stack that ends in `v` yields `v` and the rest. -/
theorem stackPop_snoc (l : List Value) (v : Value) :
    stackPop (l ++ [v]) = .ok (v, l) := by
  simp [stackPop]

/-- `pop` never panics. -/
theorem stackPop_not_crash (st : List Value) : stackPop st ≠ .crash := by
  unfold stackPop
  cases h : st.getLast? <;> simp

/-- The only error `pop` reports is `stack underflow`. -/
theorem stackPop_err {st : List Value} {m : String} (h : stackPop st = .err m) :
    m = "stack underflow" := by
  unfold stackPop at h
  cases hg : st.getLast? <;> simp [hg] at h <;> simp [h]

/-- `as_bool` errors only with its type-mismatch message and never panics. -/
theorem as_bool_spec (v : Value) :
    match v.as_bool with
    | .ok _ => True
    | .err m => m = "value is not a boolean"
    | .crash => False := by
  cases v <;> simp [Value.as_bool]

/-- `as_int` errors only with its type-mismatch message and never panics. -/
theorem as_int_spec (v : Value) :
    match v.as_int with
    | .ok _ => True
    | .err m => m = "value is not an integer"
    | .crash => False := by
  cases v <;> simp [Value.as_int]

/-- `as_proc` errors only with its type-mismatch message and never panics. -/
theorem as_proc_spec (v : Value) :
    match v.as_proc with
    | .ok _ => True
    | .err m => m = "value is not a procedure"
    | .crash => False := by
  cases v <;> simp [Value.as_proc]

/-- `pop_bool` errors only with `stack underflow` or the boolean
type-mismatch message, and never panics. -/
theorem stackPopBool_spec (st : List Value) :
    match stackPopBool st with
    | .ok _ => True
    | .err m => m = "stack underflow" ∨ m = "value is not a boolean"
    | .crash => False := by
  unfold stackPopBool
  cases hp : stackPop st with
  | ok p =>
    have := as_bool_spec p.1
    cases hb : p.1.as_bool <;> simp_all
  | err m => exact Or.inl (stackPop_err hp)
  | crash => exact stackPop_not_crash st hp

/-- `pop_int` errors only with `stack underflow` or the integer
type-mismatch message, and never panics. -/
theorem stackPopInt_spec (st : List Value) :
    match stackPopInt st with
    | .ok _ => True
    | .err m => m = "stack underflow" ∨ m = "value is not an integer"
    | .crash => False := by
  unfold stackPopInt
  cases hp : stackPop st with
  | ok p =>
    have := as_int_spec p.1
    cases hb : p.1.as_int <;> simp_all
  | err m => exact Or.inl (stackPop_err hp)
  | crash => exact stackPop_not_crash st hp

/-- `value_at` either succeeds or panics; it never reports an error. -/
theorem stackValueAt_spec (st : List Value) (b k : Nat) :
    match stackValueAt st b k with
    | .ok _ => True
    | .err _ => False
    | .crash => True := by
  unfold stackValueAt
  cases st.get? (b + k) <;> simp

/-- Capture materialization either succeeds or panics; it never reports
an error. -/
theorem materialize_spec (s : VMState) (caps : List Capture) :
    match materialize s caps with
    | .ok _ => True
    | .err _ => False
    | .crash => True := by
  induction caps with
  | nil => simp [materialize]
  | cons c rest ih =>
    cases c with
    | Local k =>
      simp only [materialize]
      have := stackValueAt_spec s.stack s.stack_base k
      cases hv : stackValueAt s.stack s.stack_base k <;> simp_all
      cases hm : materialize s rest <;> simp_all
    | Capture k =>
      simp only [materialize]
      cases hv : s.captures.get? k <;> simp_all
      cases hm : materialize s rest <;> simp_all

/-! ## C1 — `TailCall` semantics -/

/-- C1: with at least two values above `frame_base` and the
second-from-top a `Procedure`, executing `TailCall` pops the argument
and the procedure, truncates the stack to `frame_base`, re-pushes the
procedure and then the argument, jumps to the procedure's start with its
captures installed, and leaves the call stack (and `stack_base`)
unchanged; the preserved prefix has length exactly `frame_base`, so the
stack above `frame_base` is exactly `[proc, arg]`. -/
theorem tailCall_semantics (stk : List Value) (cs : List Frame) (ip base : Nat)
    (caps : List Value) (rest : List Value) (pstart : Nat) (pcaps : List Value)
    (arg : Value)
    (hstack : stk = rest ++ [Value.Procedure pstart pcaps, arg])
    (hbase : base ≤ rest.length) :
    execOp Op.TailCall ⟨stk, cs, ip, base, caps⟩ =
      Vm.ok ⟨rest.take base ++ [Value.Procedure pstart pcaps, arg], cs, pstart,
             base, pcaps⟩
    ∧ (rest.take base).length = base := by
  subst hstack
  refine ⟨?_, by simp [List.length_take, Nat.min_eq_left hbase]⟩
  have h1 : stackPop (rest ++ [Value.Procedure pstart pcaps, arg]) =
      .ok (arg, rest ++ [Value.Procedure pstart pcaps]) := by
    have := stackPop_snoc (rest ++ [Value.Procedure pstart pcaps]) arg
    simpa using this
  have h2 : stackPop (rest ++ [Value.Procedure pstart pcaps]) =
      .ok (Value.Procedure pstart pcaps, rest) := stackPop_snoc _ _
  simp [execOp, h1, h2, stackPopTo, Value.as_proc]

/-- Witness for C1 at a concrete state: stack `[<proc @7>, 5]`,
`frame_base = 0`, empty call stack. -/
theorem tailCall_semantics_witness :
    execOp Op.TailCall ⟨[Value.Procedure 7 [], Value.Integer 5], [], 3, 0, []⟩ =
      Vm.ok ⟨[Value.Procedure 7 [], Value.Integer 5], [], 7, 0, []⟩
    ∧ (([] : List Value).take 0).length = 0 :=
  tailCall_semantics [Value.Procedure 7 [], Value.Integer 5] [] 3 0 [] []
    7 [] (Value.Integer 5) rfl (Nat.le_refl 0)

/-! ## C6 — error handling of the VM loop -/

/-- Operations whose execution performs a direct indexed access into the
stack or the captures vector (or a `usize` length subtraction); these are
the operations that can make the Rust VM panic instead of returning an
error. -/
def isIndexingOp : Op → Bool
  | .Call => true
  | .Return => true
  | .PushLocal _ => true
  | .PushGlobal _ => true
  | .PushCapture _ => true
  | .MakeProc _ _ => true
  | _ => false

/-- The error strings `runtime.rs` can produce, each naming its
condition. -/
def namesCondition (msg : String) : Prop :=
  msg = "stack underflow" ∨ msg = "value is not an integer" ∨
  msg = "value is not a boolean" ∨ msg = "value is not a procedure" ∨
  msg = "call stack underflow" ∨ ∃ line : Nat, msg = "Assert at line " ++ toString line

/-- C6 (amended): a pop from an empty stack and every dynamic type-check
failure surface as an error result whose message names the condition;
but an out-of-range indexed access — `PushLocal`, `PushGlobal`,
`PushCapture`, capture materialization in `MakeProc`, or the length
arithmetic of `Call`/`Return` — is a Rust panic (`crash`), not an error
result. Formally: a `crash` can only arise from an indexing operation,
and every error message names its condition. -/
theorem vm_error_or_crash_amended (op : Op) (s : VMState) :
    match execOp op s with
    | .crash => isIndexingOp op = true
    | .err msg => namesCondition msg
    | .ok _ => True := by
  cases op with
  | Assert line =>
    simp only [execOp]
    have := stackPopBool_spec s.stack
    cases hp : stackPopBool s.stack with
    | ok p =>
      cases hb : p.1 <;> simp_all [namesCondition]
      exact Or.inr (Or.inr (Or.inr (Or.inr (Or.inr ⟨line, rfl⟩))))
    | err m => simp_all [namesCondition] <;> tauto
    | crash => simp_all
  | Call =>
    simp only [execOp]
    by_cases h2 : s.stack.length < 2
    · simp [h2, isIndexingOp]
    · simp only [h2, if_false]
      have := stackValueAt_spec s.stack (s.stack.length - 2) 0
      cases hv : stackValueAt s.stack (s.stack.length - 2) 0 with
      | ok v =>
        have := as_proc_spec v
        cases hq : v.as_proc with
        | ok p => simp_all
        | err m => simp_all [namesCondition] <;> tauto
        | crash => simp_all
      | err m => simp_all
      | crash => simp_all [isIndexingOp]
  | Diff =>
    simp only [execOp]
    have := stackPopInt_spec s.stack
    cases hp : stackPopInt s.stack with
    | ok p =>
      have := stackPopInt_spec p.2
      cases hq : stackPopInt p.2 with
      | ok q => simp_all
      | err m => simp_all [namesCondition] <;> tauto
      | crash => simp_all
    | err m => simp_all [namesCondition] <;> tauto
    | crash => simp_all
  | IsZero =>
    simp only [execOp]
    have := stackPopInt_spec s.stack
    cases hp : stackPopInt s.stack with
    | ok p => simp_all
    | err m => simp_all [namesCondition] <;> tauto
    | crash => simp_all
  | Jump a => simp [execOp]
  | JumpTrue a =>
    simp only [execOp]
    have := stackPopBool_spec s.stack
    cases hp : stackPopBool s.stack with
    | ok p => cases hb : p.1 <;> simp_all
    | err m => simp_all [namesCondition] <;> tauto
    | crash => simp_all
  | MakeProc start caps =>
    simp only [execOp]
    have := materialize_spec s caps
    cases hm : materialize s caps with
    | ok vs => simp_all
    | err m => simp_all
    | crash => simp_all [isIndexingOp]
  | Negate =>
    simp only [execOp]
    have := stackPopInt_spec s.stack
    cases hp : stackPopInt s.stack with
    | ok p => simp_all
    | err m => simp_all [namesCondition] <;> tauto
    | crash => simp_all
  | PushCapture k =>
    simp only [execOp]
    cases hv : s.captures.get? k <;> simp_all [isIndexingOp]
  | PushGlobal k =>
    simp only [execOp]
    have := stackValueAt_spec s.stack k 0
    cases hv : stackValueAt s.stack k 0 <;> simp_all [isIndexingOp]
  | PushLocal k =>
    simp only [execOp]
    have := stackValueAt_spec s.stack s.stack_base k
    cases hv : stackValueAt s.stack s.stack_base k <;> simp_all [isIndexingOp]
  | PushValue v => simp [execOp]
  | Return =>
    simp only [execOp]
    by_cases h0 : s.stack.length = 0
    · simp [h0, isIndexingOp]
    · simp only [h0, if_false]
      have := stackValueAt_spec s.stack (s.stack.length - 1) 0
      cases hv : stackValueAt s.stack (s.stack.length - 1) 0 with
      | ok v =>
        cases hc : s.call_stack <;> simp_all [namesCondition]
      | err m => simp_all
      | crash => simp_all [isIndexingOp]
  | TailCall =>
    simp only [execOp]
    have := stackPop_not_crash s.stack
    cases hp : stackPop s.stack with
    | ok p =>
      have := stackPop_not_crash p.2
      cases hq : stackPop p.2 with
      | ok q =>
        have := as_proc_spec q.1
        cases hr : q.1.as_proc with
        | ok r => simp_all
        | err m => simp_all [namesCondition] <;> tauto
        | crash => simp_all
      | err m => have := stackPop_err hq; simp_all [namesCondition] <;> tauto
      | crash => simp_all
    | err m => have := stackPop_err hp; simp_all [namesCondition] <;> tauto
    | crash => simp_all

/-- Counterexample to C6 as stated: running `[PushLocal(0)]` from the
initial (empty) stack performs `stack[0]` on an empty `Vec` — a Rust
panic, not an error result. -/
theorem vm_crash_cex : run 2 [Op.PushLocal 0] = RunOut.crash := rfl

/-! ## C10 — end of program with an empty stack -/

/-- C10: whenever the instruction pointer has run off the end of the
program and the value stack is empty — in particular for `run(&[])` —
the VM returns the error `stack underflow` (not a value and not a
crash). -/
theorem empty_program_underflow (program : List Op) (s : VMState) (fuel : Nat)
    (hip : program.length ≤ s.next_op) (hstack : s.stack = []) :
    runLoop program (fuel + 1) s = RunOut.err "stack underflow" := by
  have hg : program[s.next_op]? = none := by
    rw [List.getElem?_eq_none_iff]
    exact hip
  simp [runLoop, hg, hstack]

/-- Witness for C10: `run(&[])` is exactly the `stack underflow`
error. -/
theorem empty_program_underflow_witness :
    run 1 [] = RunOut.err "stack underflow" :=
  empty_program_underflow [] initState 0 (Nat.le_refl 0) rfl

/-! ## The source AST, from `src/parser.rs`

The snapshot mixes revisions: `compiler.rs` matches a `parser::Expr`
that also had a `Minus` variant and a two-field `Proc`, while the
snapshot's `parser.rs` defines the variants below. The input type
(`parser::Expr`) is authoritative: the compiler's `Expr::Minus` arm has
no corresponding variant and is dead code, so it is not embedded. The
`f64` literal payload is carried opaquely through every embedded pass
(never computed with), so it is embedded as `Int`. -/

/-- Source type annotations (`parser.rs`, `TypeTag`); the `LetType`
newtype wrapping `Box<TypeTag>` is flattened away. -/
inductive TypeTag where
  | Int
  | Bool
  | Proc (var_type result_type : TypeTag)
deriving DecidableEq

/-- `parser.rs` `LetType`, identified with its underlying `TypeTag`. -/
abbrev LetType := TypeTag

/-- The parser's expression AST (`parser.rs`, `enum Expr`). -/
inductive PExpr where
  | Const (x : Int)
  | Diff (e1 e2 : PExpr)
  | IsZero (e : PExpr)
  | If (guard consq alt : PExpr)
  | Var (v : String)
  | Let (var : String) (rhs body : PExpr)
  | Print (e : PExpr)
  | Proc (var : String) (var_type : LetType) (body : PExpr)
  | Call (p a : PExpr)
  | LetRec (result_type : LetType) (name var : String) (var_type : LetType)
      (proc_body let_body : PExpr)
deriving DecidableEq

/-! ## The compiler's target operations

`compiler.rs` emits `runtime::Op` values; the revision of `runtime::Op`
it was written against also had `Minus` and `Print` and a `Number` value
constructor. `COp` is that op set; `Minus` is retained although only the
dead `Expr::Minus` arm referenced it. -/

/-- The value constructor the compiler emits (`Value::Number`). -/
inductive CValue where
  | Number (x : Int)
deriving DecidableEq

/-- Operations emitted by `compiler.rs`. -/
inductive COp where
  | Call
  | Diff
  | IsZero
  | Jump (address : Nat)
  | JumpTrue (address : Nat)
  | MakeProc (start : Nat) (captures : List Capture)
  | Minus
  | Print
  | PushCapture (k : Nat)
  | PushGlobal (k : Nat)
  | PushLocal (k : Nat)
  | PushValue (v : CValue)
  | Return
  | TailCall
deriving DecidableEq

/-! ## Compile-time state, from `src/compiler.rs`

This `CompilerState` (with its `Binding`, `BindingTable`, `Capture`,
`CaptureTable` and `Frame` types) appears textually identically in
`src/name_analysis.rs`; it is embedded once and shared by the embeddings
of both passes. A `BindingTable` is a `Vec` pushed at the end and
scanned newest-first, embedded as a list whose head is the newest
binding so that lookup is a head-first `find?`. A `CaptureTable` keeps
the Rust `Vec` order (append at the end, reverse scan, indices from the
front). The call stack's head is the innermost frame. -/

/-- A named stack slot (`compiler.rs`, `struct Binding`). -/
structure Binding where
  name : String
  stack_index : Nat
deriving DecidableEq

/-- `BindingTable::push`. -/
def btPush (t : List Binding) (name : String) (idx : Nat) : List Binding :=
  ⟨name, idx⟩ :: t

/-- `BindingTable::pop`; the Rust `expect("binding table underflow")`
panic is unreachable in the compiler (every pop follows its push), so
the empty case is total truncation. -/
def btPop (t : List Binding) : List Binding :=
  t.tail

/-- `BindingTable::lookup`: innermost (newest) binding wins. -/
def btLookup (t : List Binding) (name : String) : Option Nat :=
  (t.find? (fun b => b.name == name)).map (·.stack_index)

/-- The free function `lookup` over an optional table (`compiler.rs`). -/
def lookupOpt (bindings : Option (List Binding)) (name : String) : Option Nat :=
  match bindings with
  | some t => btLookup t name
  | none => none

/-- A capture-table entry (`compiler.rs`, `struct Capture`). -/
structure CCapture where
  name : String
  is_local : Bool
  index : Nat
deriving DecidableEq

/-- `CaptureTable::add_local_capture`: append and return the new
entry's index (`len - 1` after the push). -/
def ctAddLocal (t : List CCapture) (name : String) (scope : Nat) :
    List CCapture × Nat :=
  (t ++ [⟨name, true, scope⟩], t.length)

/-- `CaptureTable::add_capture_capture`. -/
def ctAddCapture (t : List CCapture) (name : String) (outer : Nat) :
    List CCapture × Nat :=
  (t ++ [⟨name, false, outer⟩], t.length)

/-- `CaptureTable::lookup`: reverse scan, returning the position (from
the front) of the newest matching entry. -/
def ctLookup (t : List CCapture) (name : String) : Option Nat :=
  (t.enum.reverse.find? (fun p => p.2.name == name)).map (·.1)

/-- A saved compile-time frame (`compiler.rs`, `struct Frame`). -/
structure CFrame where
  stack_top : Nat
  locals : Option (List Binding)
  captures : List CCapture
deriving DecidableEq

/-- The compiler's traversal state (`compiler.rs`,
`struct CompilerState`). -/
structure CompilerState where
  stack_top : Nat
  save_stack : List Nat
  globals : List Binding
  locals : Option (List Binding)
  call_stack : List CFrame
deriving DecidableEq

/-- `CompilerState::new`. -/
def CompilerState.new : CompilerState := ⟨0, [], [], none, []⟩

/-- `CompilerState::call_depth`. -/
def CompilerState.call_depth (s : CompilerState) : Nat :=
  s.call_stack.length

/-- `CompilerState::push`: the abstract stack grows by one. -/
def CompilerState.push (s : CompilerState) : CompilerState :=
  { s with stack_top := s.stack_top + 1 }

/-- `CompilerState::pop`. The Rust `usize` decrement would panic at
zero; within `compile_expr` every pop follows pushes of the compiled
operands (each expression contributes at least one), so the truncated
decrement agrees with Rust on all reachable states. -/
def CompilerState.pop (s : CompilerState) : CompilerState :=
  { s with stack_top := s.stack_top - 1 }

/-- `CompilerState::save_stack` (the method). -/
def CompilerState.saveStack (s : CompilerState) : CompilerState :=
  { s with save_stack := s.stack_top :: s.save_stack }

/-- `CompilerState::restore_stack`; the `expect("save stack underflow")`
panic is unreachable (every restore follows its save in the `If` arm),
so the empty case leaves the state unchanged. -/
def CompilerState.restoreStack (s : CompilerState) : CompilerState :=
  match s.save_stack with
  | n :: rest => { s with stack_top := n, save_stack := rest }
  | [] => s

/-- `CompilerState::begin_scope`: bind `name` to slot `stack_top - 1`
in the current bindings (locals inside a proc, globals at top level). -/
def CompilerState.begin_scope (s : CompilerState) (name : String) : CompilerState :=
  match s.locals with
  | some l => { s with locals := some (btPush l name (s.stack_top - 1)) }
  | none => { s with globals := btPush s.globals name (s.stack_top - 1) }

/-- `CompilerState::end_scope`: drop the newest current binding. -/
def CompilerState.end_scope (s : CompilerState) : CompilerState :=
  match s.locals with
  | some l => { s with locals := some (btPop l) }
  | none => { s with globals := btPop s.globals }

/-- `CompilerState::begin_proc`: save `stack_top` and `locals` into a
new frame, reset them, then simulate pushing the proc object (bound to
`name` at slot 0) and the argument (bound to `var` at slot 1). -/
def CompilerState.begin_proc (s : CompilerState) (name var : String) : CompilerState :=
  let frame : CFrame := ⟨s.stack_top, s.locals, []⟩
  let s1 : CompilerState :=
    { s with stack_top := 0, locals := some [], call_stack := frame :: s.call_stack }
  (((s1.push).begin_scope name).push).begin_scope var

/-- `CompilerState::end_proc`: pop the innermost frame, restore
`stack_top` and `locals`, and hand back the frame's capture table; the
`expect("call stack underflow")` panic is unreachable (every `end_proc`
follows its `begin_proc`). -/
def CompilerState.end_proc (s : CompilerState) : List CCapture × CompilerState :=
  match s.call_stack with
  | frame :: rest =>
    (frame.captures,
      { s with stack_top := frame.stack_top, locals := frame.locals,
               call_stack := rest })
  | [] => ([], s)

/-- `CompilerState::lookup_local`. -/
def CompilerState.lookup_local (s : CompilerState) (name : String) : Option Nat :=
  lookupOpt s.locals name

/-- `CompilerState::capture`, recursing from the innermost frame (the
head of the list) outward: a local of the frame is captured afresh
(`FromLocal`, appended unconditionally); otherwise an existing capture
entry is reused; otherwise the name is captured from the next enclosing
frame and recorded here as `FromCapture`. -/
def captureFrames (name : String) : List CFrame → Option (Nat × List CFrame)
  | [] => none
  | f :: rest =>
    match lookupOpt f.locals name with
    | some stack_index =>
      let (t, idx) := ctAddLocal f.captures name stack_index
      some (idx, { f with captures := t } :: rest)
    | none =>
      match ctLookup f.captures name with
      | some idx => some (idx, f :: rest)
      | none =>
        match captureFrames name rest with
        | some (outer, rest') =>
          let (t, idx) := ctAddCapture f.captures name outer
          some (idx, { f with captures := t } :: rest')
        | none => none

/-- `CompilerState::lookup_capture`: attempt a capture starting from
the innermost enclosing frame, if any. -/
def CompilerState.lookup_capture (s : CompilerState) (name : String) :
    Option (Nat × CompilerState) :=
  match s.call_stack with
  | [] => none
  | _ =>
    match captureFrames name s.call_stack with
    | some (idx, fs) => some (idx, { s with call_stack := fs })
    | none => none

/-! ## The chunk, from `src/compiler.rs` -/

/-- `Chunk::emit`: append and return the op's index. -/
def chunkEmit (ops : List COp) (op : COp) : List COp × Nat :=
  (ops ++ [op], ops.length)

/-- `Chunk::next_address`. -/
def chunkNextAddress (ops : List COp) : Nat :=
  ops.length

/-- `Chunk::patch`: rewrite the target of the `Jump`/`JumpTrue` at
`patch_at`; any other opcode (or an out-of-range index, which in Rust
would panic but never occurs) is left unchanged. -/
def chunkPatch (ops : List COp) (patch_at target : Nat) : List COp :=
  match ops[patch_at]? with
  | some (COp.Jump _) => ops.set patch_at (COp.Jump target)
  | some (COp.JumpTrue _) => ops.set patch_at (COp.JumpTrue target)
  | _ => ops

/-- Compilation position (`compiler.rs`, `enum ExprPos`). -/
inductive ExprPos where
  | Operand
  | Tail
deriving DecidableEq

/-- `compile_expr` (`compiler.rs`): lower a parser expression onto the
growing chunk, threading the compiler state; `Result` is embedded as
`Except String`. -/
def compileExpr : PExpr → ExprPos → List COp → CompilerState →
    Except String (List COp × CompilerState)
  | .Call p a, pos, chunk, state =>
    match compileExpr p .Operand chunk state with
    | .error m => .error m
    | .ok (c1, s1) =>
      match compileExpr a .Operand c1 s1 with
      | .error m => .error m
      | .ok (c2, s2) =>
        let s3 := s2.pop.pop
        let (c3, _) :=
          chunkEmit c2 (if pos = ExprPos.Tail ∧ 0 < s3.call_depth
                        then COp.TailCall else COp.Call)
        .ok (c3, s3.push)
  | .Const x, _, chunk, state =>
    let (c1, _) := chunkEmit chunk (COp.PushValue (CValue.Number x))
    .ok (c1, state.push)
  | .Diff e1 e2, _, chunk, state =>
    match compileExpr e1 .Operand chunk state with
    | .error m => .error m
    | .ok (c1, s1) =>
      match compileExpr e2 .Operand c1 s1 with
      | .error m => .error m
      | .ok (c2, s2) =>
        let s3 := s2.pop.pop
        let (c3, _) := chunkEmit c2 COp.Diff
        .ok (c3, s3.push)
  | .If guard consq alt, _, chunk, state =>
    match compileExpr guard .Operand chunk state with
    | .error m => .error m
    | .ok (c1, s1) =>
      let s2 := s1.pop
      let (c2, branch_to_consq) := chunkEmit c1 (COp.JumpTrue 0)
      let s3 := s2.saveStack
      match compileExpr alt .Tail c2 s3 with
      | .error m => .error m
      | .ok (c3, s4) =>
        let (c4, branch_to_end) := chunkEmit c3 (COp.Jump 0)
        let s5 := s4.restoreStack
        let consq_start := chunkNextAddress c4
        match compileExpr consq .Tail c4 s5 with
        | .error m => .error m
        | .ok (c5, s6) =>
          let if_end := chunkNextAddress c5
          let c6 := chunkPatch c5 branch_to_consq consq_start
          let c7 := chunkPatch c6 branch_to_end if_end
          .ok (c7, s6)
  | .IsZero e, _, chunk, state =>
    match compileExpr e .Operand chunk state with
    | .error m => .error m
    | .ok (c1, s1) =>
      let s2 := s1.pop
      let (c2, _) := chunkEmit c1 COp.IsZero
      .ok (c2, s2.push)
  | .Let var e1 e2, _, chunk, state =>
    match compileExpr e1 .Operand chunk state with
    | .error m => .error m
    | .ok (c1, s1) =>
      let s2 := s1.begin_scope var
      match compileExpr e2 .Tail c1 s2 with
      | .error m => .error m
      | .ok (c2, s3) => .ok (c2, s3.end_scope)
  | .LetRec _ name var _ proc_body let_body, _, chunk, state =>
    let (c1, branch_make_proc) := chunkEmit chunk (COp.Jump 0)
    let start := chunkNextAddress c1
    let s1 := state.begin_proc name var
    match compileExpr proc_body .Tail c1 s1 with
    | .error m => .error m
    | .ok (c2, s2) =>
      let (c3, _) := chunkEmit c2 COp.Return
      let (captures, s3) := s2.end_proc
      let capture_ops := captures.map
        (fun c => if c.is_local then Capture.Local c.index else Capture.Capture c.index)
      let (c4, make_proc_index) := chunkEmit c3 (COp.MakeProc start capture_ops)
      let s4 := s3.push
      let c5 := chunkPatch c4 branch_make_proc make_proc_index
      let s5 := s4.begin_scope name
      match compileExpr let_body .Tail c5 s5 with
      | .error m => .error m
      | .ok (c6, s6) => .ok (c6, s6.end_scope)
  | .Print e, _, chunk, state =>
    match compileExpr e .Operand chunk state with
    | .error m => .error m
    | .ok (c1, s1) =>
      let (c2, _) := chunkEmit c1 COp.Print
      .ok (c2, s1)
  | .Proc var _ body, _, chunk, state =>
    let (c1, branch_make_proc) := chunkEmit chunk (COp.Jump 0)
    let start := chunkNextAddress c1
    let s1 := state.begin_proc "" var
    match compileExpr body .Tail c1 s1 with
    | .error m => .error m
    | .ok (c2, s2) =>
      let (c3, _) := chunkEmit c2 COp.Return
      let (captures, s3) := s2.end_proc
      let capture_ops := captures.map
        (fun c => if c.is_local then Capture.Local c.index else Capture.Capture c.index)
      let (c4, make_proc_index) := chunkEmit c3 (COp.MakeProc start capture_ops)
      let s4 := s3.push
      let c5 := chunkPatch c4 branch_make_proc make_proc_index
      .ok (c5, s4)
  | .Var v, _, chunk, state =>
    match state.lookup_local v with
    | some stack_index =>
      let (c1, _) := chunkEmit chunk (COp.PushLocal stack_index)
      .ok (c1, state.push)
    | none =>
      match state.lookup_capture v with
      | some (capture_index, s1) =>
        let (c1, _) := chunkEmit chunk (COp.PushCapture capture_index)
        .ok (c1, s1.push)
      | none =>
        match btLookup state.globals v with
        | some stack_index =>
          let (c1, _) := chunkEmit chunk (COp.PushGlobal stack_index)
          .ok (c1, state.push)
        | none => .error ("undefined name: " ++ v)

/-- `compiler::compile`: compile the whole program in tail position
from the fresh state. -/
def compile (program : PExpr) : Except String (List COp) :=
  match compileExpr program .Tail [] CompilerState.new with
  | .ok (c, _) => .ok c
  | .error m => .error m


/-- Net growth of the compile-time stack counter produced by compiling
one expression. -/
def delta : PExpr → Nat
  | .Const _ => 1
  | .Diff e1 e2 => delta e1 + delta e2 - 1
  | .IsZero e => delta e
  | .If g c _ => delta g + delta c - 1
  | .Var _ => 1
  | .Let _ e1 e2 => delta e1 + delta e2
  | .Print e => delta e
  | .Proc _ _ _ => 1
  | .Call p a => delta p + delta a - 1
  | .LetRec _ _ _ _ _ lb => 1 + delta lb

/-- Every expression produces at least one value. -/
theorem delta_pos (e : PExpr) : 1 ≤ delta e := by
  induction e <;> simp [delta] <;> omega

/-- Relocate a code address emitted at chunk-prefix length `m` to the
address it would have at prefix length `n`. -/
def relocAddr (m n a : Nat) : Nat := n + (a - m)

/-- Relocate the code addresses inside one op. -/
def relocOp (m n : Nat) : COp → COp
  | .Jump a => .Jump (relocAddr m n a)
  | .JumpTrue a => .JumpTrue (relocAddr m n a)
  | .MakeProc st caps => .MakeProc (relocAddr m n st) caps
  | op => op

/-- All code addresses in the op are at least `n`. -/
def opAddrsGE (n : Nat) : COp → Prop
  | .Jump a => n ≤ a
  | .JumpTrue a => n ≤ a
  | .MakeProc st _ => n ≤ st
  | _ => True

/-- The op's jump target (if any) is at most `n`. -/
def opTargetsLE (n : Nat) : COp → Bool
  | .Jump a => decide (a ≤ n)
  | .JumpTrue a => decide (a ≤ n)
  | _ => true

/-- Every `Jump`/`JumpTrue` target in the list is at most `n`. -/
def chunkTargetsLE (ops : List COp) (n : Nat) : Bool := ops.all (opTargetsLE n)

/-- A compile-time frame after resolution extends its former capture
table and keeps everything else. -/
def frameGrows (f f' : CFrame) : Prop :=
  f'.stack_top = f.stack_top ∧ f'.locals = f.locals ∧ ∃ ex, f'.captures = f.captures ++ ex

/-- Pointwise `frameGrows` over the whole call stack. -/
def callGrows : List CFrame → List CFrame → Prop := List.Forall₂ frameGrows

theorem frameGrows_refl (f : CFrame) : frameGrows f f := ⟨rfl, rfl, [], by simp⟩

theorem callGrows_refl (fs : List CFrame) : callGrows fs fs := by
  induction fs with
  | nil => exact List.Forall₂.nil
  | cons f rest ih => exact List.Forall₂.cons (frameGrows_refl f) ih

theorem frameGrows_trans {a b c : CFrame} (h1 : frameGrows a b) (h2 : frameGrows b c) :
    frameGrows a c := by
  obtain ⟨x1, x2, ex1, hx⟩ := h1
  obtain ⟨y1, y2, ex2, hy⟩ := h2
  exact ⟨y1.trans x1, y2.trans x2, ex1 ++ ex2, by rw [hy, hx, List.append_assoc]⟩

theorem callGrows_trans {a b c : List CFrame} (h1 : callGrows a b) (h2 : callGrows b c) :
    callGrows a c := by
  induction h1 generalizing c with
  | nil => cases h2; exact .nil
  | cons hf _ ih =>
    cases h2 with
    | cons hf2 hrest2 => exact .cons (frameGrows_trans hf hf2) (ih hrest2)

theorem callGrows_length {a b : List CFrame} (h : callGrows a b) :
    b.length = a.length := (List.Forall₂.length_eq h).symm

theorem opAddrsGE_mono {m n : Nat} {op : COp} (hmn : m ≤ n) (h : opAddrsGE n op) :
    opAddrsGE m op := by
  cases op <;> simp [opAddrsGE] at h ⊢ <;> omega

theorem opTargetsLE_mono {m n : Nat} {op : COp} (hmn : m ≤ n)
    (h : opTargetsLE m op = true) : opTargetsLE n op = true := by
  cases op <;> simp [opTargetsLE] at h ⊢ <;> omega

theorem chunkTargetsLE_mono {m n : Nat} {ops : List COp} (hmn : m ≤ n)
    (h : chunkTargetsLE ops m = true) : chunkTargetsLE ops n = true := by
  simp only [chunkTargetsLE, List.all_eq_true] at h ⊢
  exact fun op hop => opTargetsLE_mono hmn (h op hop)

theorem relocOp_shift {m n g : Nat} {op : COp} (h : opAddrsGE (m + g) op) :
    relocOp (m + g) (n + g) op = relocOp m n op := by
  cases op <;> simp [relocOp, relocAddr, opAddrsGE] at h ⊢ <;> omega

theorem seg_shift {m g : Nat} (n : Nat) {seg : List COp}
    (h : ∀ op ∈ seg, opAddrsGE (m + g) op) :
    seg.map (relocOp (m + g) (n + g)) = seg.map (relocOp m n) := by
  induction seg with
  | nil => rfl
  | cons op rest ih =>
    simp only [List.map_cons, List.cons.injEq]
    exact ⟨relocOp_shift (h op (by simp)), ih (fun o ho => h o (by simp [ho]))⟩

theorem relocOp_flex {m n m' n' : Nat} {op : COp} (hge : opAddrsGE m op)
    (h1 : m' ≤ m) (h2 : n = n' + (m - m')) : relocOp m n op = relocOp m' n' op := by
  cases op <;> simp [relocOp, relocAddr, opAddrsGE] at hge ⊢ <;> omega

theorem seg_shift_flex {m n m' n' : Nat} {seg : List COp}
    (hge : ∀ op ∈ seg, opAddrsGE m op)
    (h1 : m' ≤ m) (h2 : n = n' + (m - m')) :
    seg.map (relocOp m n) = seg.map (relocOp m' n') := by
  induction seg with
  | nil => rfl
  | cons op rest ih =>
    simp only [List.map_cons, List.cons.injEq]
    exact ⟨relocOp_flex (hge op (by simp)) h1 h2,
      ih (fun o ho => hge o (by simp [ho]))⟩

theorem relocAddr_base (m n k : Nat) : relocAddr m n (m + k) = n + k := by
  simp [relocAddr]

theorem chunkPatch_cons (a : COp) (L : List COp) (n t : Nat) :
    chunkPatch (a :: L) (n + 1) t = a :: chunkPatch L n t := by
  unfold chunkPatch
  cases hg : L[n]? with
  | none => simp [hg]
  | some x => cases x <;> simp [hg]

/-- Patching exactly at the op `x` sitting after prefix `A`. -/
theorem chunkPatch_at (A B : List COp) (x : COp) (n t : Nat) (hn : n = A.length) :
    chunkPatch (A ++ x :: B) n t =
      A ++ (match x with
            | COp.Jump _ => COp.Jump t
            | COp.JumpTrue _ => COp.JumpTrue t
            | _ => x) :: B := by
  subst hn
  induction A with
  | nil => cases x <;> simp [chunkPatch]
  | cons a A ih =>
    have : (a :: A).length = A.length + 1 := by simp
    rw [this, List.cons_append, chunkPatch_cons, ih]
    rfl

/-- Structural specification of one `compile_expr` call: the chunk grows
by a segment, the state changes are those of the arm (stack counter up by
`delta`, save stack / bindings restored, outer capture tables only
extended), all code addresses in the segment are internal, all jump
targets stay below the final length, and the emitted segment depends on
the starting chunk and the save stack only by relocation. -/
def SegSpec (e : PExpr) (pos : ExprPos) (c : List COp) (s : CompilerState)
    (c₁ : List COp) (s₁ : CompilerState) : Prop :=
  ∃ seg,
    c₁ = c ++ seg ∧
    s₁.stack_top = s.stack_top + delta e ∧
    s₁.save_stack = s.save_stack ∧
    s₁.globals = s.globals ∧
    s₁.locals = s.locals ∧
    callGrows s.call_stack s₁.call_stack ∧
    (∀ op ∈ seg, opAddrsGE c.length op) ∧
    chunkTargetsLE seg (c.length + seg.length) = true ∧
    (∀ d v, compileExpr e pos d { s with save_stack := v } =
      .ok (d ++ seg.map (relocOp c.length d.length), { s₁ with save_stack := v }))

theorem captureFrames_grows (name : String) :
    ∀ fs k fs', captureFrames name fs = some (k, fs') → callGrows fs fs' := by
  intro fs
  induction fs with
  | nil => intro k fs' h; simp [captureFrames] at h
  | cons f rest ih =>
    intro k fs' h
    simp only [captureFrames] at h
    cases hl : lookupOpt f.locals name with
    | some idx =>
      rw [hl] at h
      simp only [ctAddLocal, Option.some.injEq, Prod.mk.injEq] at h
      obtain ⟨-, rfl⟩ := h
      exact .cons ⟨rfl, rfl, _, rfl⟩ (callGrows_refl rest)
    | none =>
      rw [hl] at h
      cases hc : ctLookup f.captures name with
      | some idx =>
        rw [hc] at h
        simp only [Option.some.injEq, Prod.mk.injEq] at h
        obtain ⟨-, rfl⟩ := h
        exact .cons (frameGrows_refl f) (callGrows_refl rest)
      | none =>
        rw [hc] at h
        cases hr : captureFrames name rest with
        | some p =>
          rw [hr] at h
          simp only [ctAddCapture, Option.some.injEq, Prod.mk.injEq] at h
          obtain ⟨-, rfl⟩ := h
          exact .cons ⟨rfl, rfl, _, rfl⟩ (ih p.1 p.2 hr)
        | none => rw [hr] at h; simp at h

theorem chunkTargetsLE_append {a b : List COp} {n : Nat}
    (ha : chunkTargetsLE a n = true) (hb : chunkTargetsLE b n = true) :
    chunkTargetsLE (a ++ b) n = true := by
  simp [chunkTargetsLE, List.all_append] at ha hb ⊢
  exact ⟨ha, hb⟩

theorem begin_scope_stack_top (s : CompilerState) (n : String) :
    (s.begin_scope n).stack_top = s.stack_top := by
  unfold CompilerState.begin_scope; cases s.locals <;> rfl

theorem begin_scope_save (s : CompilerState) (n : String) :
    (s.begin_scope n).save_stack = s.save_stack := by
  unfold CompilerState.begin_scope; cases s.locals <;> rfl

theorem begin_scope_call (s : CompilerState) (n : String) :
    (s.begin_scope n).call_stack = s.call_stack := by
  unfold CompilerState.begin_scope; cases s.locals <;> rfl

theorem end_scope_stack_top (s : CompilerState) :
    s.end_scope.stack_top = s.stack_top := by
  unfold CompilerState.end_scope; cases s.locals <;> rfl

theorem end_scope_save (s : CompilerState) :
    s.end_scope.save_stack = s.save_stack := by
  unfold CompilerState.end_scope; cases s.locals <;> rfl

theorem end_scope_call (s : CompilerState) :
    s.end_scope.call_stack = s.call_stack := by
  unfold CompilerState.end_scope; cases s.locals <;> rfl

theorem begin_scope_save_comm (s : CompilerState) (v : List Nat) (n : String) :
    (({ s with save_stack := v } : CompilerState).begin_scope n) =
      { s.begin_scope n with save_stack := v } := by
  obtain ⟨st, sv, g, l, cs⟩ := s
  unfold CompilerState.begin_scope
  cases l <;> rfl

theorem end_scope_save_comm (s : CompilerState) (v : List Nat) :
    (({ s with save_stack := v } : CompilerState).end_scope) =
      { s.end_scope with save_stack := v } := by
  obtain ⟨st, sv, g, l, cs⟩ := s
  unfold CompilerState.end_scope
  cases l <;> rfl

/-- Ending the scope begun on `u` (after any compilation that preserves
the bindings) restores the bindings of `u`. -/
theorem scope_restore (u : CompilerState) (var : String) (w : CompilerState)
    (hlo : w.locals = (u.begin_scope var).locals)
    (hg : w.globals = (u.begin_scope var).globals) :
    w.end_scope.locals = u.locals ∧ w.end_scope.globals = u.globals := by
  unfold CompilerState.begin_scope at hlo hg
  unfold CompilerState.end_scope
  cases hu : u.locals with
  | some l =>
    rw [hu] at hlo hg
    simp only at hlo hg
    rw [hlo]
    simp [btPush, btPop, hg, hu]
  | none =>
    rw [hu] at hlo hg
    simp only at hlo hg
    rw [hlo]
    simp [btPush, btPop, hg, hu]

theorem restoreStack_of (s : CompilerState) {n : Nat} {rest : List Nat}
    (h : s.save_stack = n :: rest) :
    s.restoreStack = { s with stack_top := n, save_stack := rest } := by
  unfold CompilerState.restoreStack
  rw [h]

theorem master (e : PExpr) : ∀ (pos : ExprPos) (c : List COp) (s : CompilerState)
    (c₁ : List COp) (s₁ : CompilerState),
    compileExpr e pos c s = .ok (c₁, s₁) → SegSpec e pos c s c₁ s₁ := by
  induction e with
  | Const x =>
    intro pos c s c₁ s₁ h
    simp only [compileExpr, chunkEmit, Except.ok.injEq, Prod.mk.injEq] at h
    obtain ⟨rfl, rfl⟩ := h
    refine ⟨[COp.PushValue (CValue.Number x)], rfl, by simp [CompilerState.push, delta],
      rfl, rfl, rfl, callGrows_refl _, ?_, by simp [chunkTargetsLE, opTargetsLE], ?_⟩
    · intro op hop
      simp at hop
      subst hop
      trivial
    · intro d v
      simp [compileExpr, chunkEmit, relocOp, CompilerState.push]
  | Var v =>
    intro pos c s c₁ s₁ h
    simp only [compileExpr] at h
    cases hl : s.lookup_local v with
    | some k =>
      rw [hl] at h
      simp only [chunkEmit, Except.ok.injEq, Prod.mk.injEq] at h
      obtain ⟨rfl, rfl⟩ := h
      refine ⟨[COp.PushLocal k], rfl, by simp [CompilerState.push, delta], rfl, rfl, rfl,
        callGrows_refl _, ?_, by simp [chunkTargetsLE, opTargetsLE], ?_⟩
      · intro op hop; simp at hop; subst hop; trivial
      · intro d v'
        have hl' : ({ s with save_stack := v' } : CompilerState).lookup_local v = some k := hl
        simp [compileExpr, hl', chunkEmit, relocOp, CompilerState.push]
    | none =>
      rw [hl] at h
      cases hcap : s.lookup_capture v with
      | some p =>
        obtain ⟨k, s1⟩ := p
        rw [hcap] at h
        simp only [chunkEmit, Except.ok.injEq, Prod.mk.injEq] at h
        obtain ⟨rfl, rfl⟩ := h
        have hgrow : callGrows s.call_stack s1.call_stack ∧ s1.stack_top = s.stack_top ∧
            s1.save_stack = s.save_stack ∧ s1.globals = s.globals ∧ s1.locals = s.locals := by
          unfold CompilerState.lookup_capture at hcap
          cases hcs : s.call_stack with
          | nil => rw [hcs] at hcap; simp at hcap
          | cons f rest =>
            rw [hcs] at hcap
            cases hcf : captureFrames v (f :: rest) with
            | some q =>
              rw [hcf] at hcap
              simp only [Option.some.injEq, Prod.mk.injEq] at hcap
              obtain ⟨-, rfl⟩ := hcap
              exact ⟨by simpa using captureFrames_grows v (f :: rest) q.1 q.2 hcf,
                rfl, rfl, rfl, rfl⟩
            | none => rw [hcf] at hcap; simp at hcap
        obtain ⟨hcg, hst, hsv, hg, hlo⟩ := hgrow
        refine ⟨[COp.PushCapture k], rfl, by simp [CompilerState.push, delta, hst], by simp [CompilerState.push, hsv],
          by simp [CompilerState.push, hg], by simp [CompilerState.push, hlo], by simpa [CompilerState.push] using hcg, ?_,
          by simp [chunkTargetsLE, opTargetsLE], ?_⟩
        · intro op hop; simp at hop; subst hop; trivial
        · intro d v'
          have hl' : ({ s with save_stack := v' } : CompilerState).lookup_local v = none := hl
          have hcap' : ({ s with save_stack := v' } : CompilerState).lookup_capture v =
              some (k, { s1 with save_stack := v' }) := by
            unfold CompilerState.lookup_capture at hcap ⊢
            cases hcs : s.call_stack with
            | nil => rw [hcs] at hcap; simp at hcap
            | cons f rest =>
              simp only [hcs] at hcap ⊢
              cases hcf : captureFrames v (f :: rest) with
              | some q =>
                rw [hcf] at hcap
                simp only [Option.some.injEq, Prod.mk.injEq] at hcap
                obtain ⟨rfl, rfl⟩ := hcap
                simp
              | none => rw [hcf] at hcap; simp at hcap
          simp [compileExpr, hl', hcap', chunkEmit, relocOp, CompilerState.push]
      | none =>
        rw [hcap] at h
        cases hg : btLookup s.globals v with
        | some k =>
          rw [hg] at h
          simp only [chunkEmit, Except.ok.injEq, Prod.mk.injEq] at h
          obtain ⟨rfl, rfl⟩ := h
          refine ⟨[COp.PushGlobal k], rfl, by simp [CompilerState.push, delta], rfl, rfl, rfl,
            callGrows_refl _, ?_, by simp [chunkTargetsLE, opTargetsLE], ?_⟩
          · intro op hop; simp at hop; subst hop; trivial
          · intro d v'
            have hl' : ({ s with save_stack := v' } : CompilerState).lookup_local v = none := hl
            have hcap' : ({ s with save_stack := v' } : CompilerState).lookup_capture v = none := by
              unfold CompilerState.lookup_capture at hcap ⊢
              cases hcs : s.call_stack with
              | nil => simp [hcs]
              | cons f rest =>
                simp only [hcs] at hcap ⊢
                cases hcf : captureFrames v (f :: rest) with
                | some q => rw [hcf] at hcap; simp at hcap
                | none => simp [hcf]
            simp [compileExpr, hl', hcap', hg, chunkEmit, relocOp, CompilerState.push]
        | none => rw [hg] at h; simp at h
  | Diff e1 e2 ih1 ih2 =>
    intro pos c s c₁ s₁ h
    simp only [compileExpr] at h
    cases hp : compileExpr e1 .Operand c s with
    | error m => rw [hp] at h; simp at h
    | ok r1 =>
      obtain ⟨cP, uP⟩ := r1
      rw [hp] at h
      dsimp only at h
      cases hq : compileExpr e2 .Operand cP uP with
      | error m => rw [hq] at h; simp at h
      | ok r2 =>
        obtain ⟨cA, uA⟩ := r2
        rw [hq] at h
        simp only [chunkEmit, Except.ok.injEq, Prod.mk.injEq] at h
        obtain ⟨rfl, rfl⟩ := h
        obtain ⟨segP, rfl, hst1, hsv1, hg1, hlo1, hcg1, hge1, htg1, hrel1⟩ :=
          ih1 .Operand c s cP uP hp
        obtain ⟨segA, rfl, hst2, hsv2, hg2, hlo2, hcg2, hge2, htg2, hrel2⟩ :=
          ih2 .Operand (c ++ segP) uP cA uA hq
        have d1 := delta_pos e1
        have d2 := delta_pos e2
        refine ⟨segP ++ segA ++ [COp.Diff], by simp, ?_, ?_, ?_, ?_, ?_, ?_, ?_, ?_⟩
        · simp only [CompilerState.push, CompilerState.pop, delta]
          omega
        · simpa [CompilerState.push, CompilerState.pop, hsv2] using hsv1
        · simpa [CompilerState.push, CompilerState.pop, hg2] using hg1
        · simpa [CompilerState.push, CompilerState.pop, hlo2] using hlo1
        · simpa [CompilerState.push, CompilerState.pop] using callGrows_trans hcg1 hcg2
        · intro op hop
          rcases List.mem_append.mp hop with h1 | h2
          · rcases List.mem_append.mp h1 with h3 | h4
            · exact hge1 op h3
            · exact opAddrsGE_mono (by simp only [List.length_append]; omega) (hge2 op h4)
          · simp at h2; subst h2; trivial
        · refine chunkTargetsLE_append (chunkTargetsLE_append ?_ ?_) ?_
          · exact chunkTargetsLE_mono (by simp only [List.length_append, List.length_cons, List.length_nil]; omega) htg1
          · exact chunkTargetsLE_mono (by simp only [List.length_append, List.length_cons, List.length_nil]; omega) htg2
          · simp [chunkTargetsLE, opTargetsLE]
        · intro d v
          simp only [compileExpr]
          rw [hrel1 d v]
          dsimp only
          rw [hrel2 (d ++ segP.map (relocOp c.length d.length)) v]
          have hseg : segA.map (relocOp (c ++ segP).length (d ++ segP.map (relocOp c.length d.length)).length) = segA.map (relocOp c.length d.length) := by
            have := @seg_shift c.length segP.length d.length segA
              (by simpa using hge2)
            simpa using this
          rw [hseg]
          simp [chunkEmit, List.map_append, relocOp, CompilerState.push, CompilerState.pop,
            List.append_assoc]
  | IsZero e ih =>
    intro pos c s c₁ s₁ h
    simp only [compileExpr] at h
    cases hp : compileExpr e .Operand c s with
    | error m => rw [hp] at h; simp at h
    | ok r =>
      obtain ⟨cE, uE⟩ := r
      rw [hp] at h
      simp only [chunkEmit, Except.ok.injEq, Prod.mk.injEq] at h
      obtain ⟨rfl, rfl⟩ := h
      obtain ⟨segE, rfl, hst, hsv, hg, hlo, hcg, hge, htg, hrel⟩ := ih .Operand c s cE uE hp
      have d1 := delta_pos e
      refine ⟨segE ++ [COp.IsZero], by simp, ?_, ?_, ?_, ?_, ?_, ?_, ?_, ?_⟩
      · simp only [CompilerState.push, CompilerState.pop, delta]
        omega
      · simpa [CompilerState.push, CompilerState.pop] using hsv
      · simpa [CompilerState.push, CompilerState.pop] using hg
      · simpa [CompilerState.push, CompilerState.pop] using hlo
      · simpa [CompilerState.push, CompilerState.pop] using hcg
      · intro op hop
        rcases List.mem_append.mp hop with h1 | h2
        · exact hge op h1
        · simp at h2; subst h2; trivial
      · refine chunkTargetsLE_append ?_ ?_
        · exact chunkTargetsLE_mono (by simp only [List.length_append, List.length_cons, List.length_nil]; omega) htg
        · simp [chunkTargetsLE, opTargetsLE]
      · intro d v
        simp only [compileExpr]
        rw [hrel d v]
        simp [chunkEmit, List.map_append, relocOp, CompilerState.push, CompilerState.pop]
  | Print e ih =>
    intro pos c s c₁ s₁ h
    simp only [compileExpr] at h
    cases hp : compileExpr e .Operand c s with
    | error m => rw [hp] at h; simp at h
    | ok r =>
      obtain ⟨cE, uE⟩ := r
      rw [hp] at h
      simp only [chunkEmit, Except.ok.injEq, Prod.mk.injEq] at h
      obtain ⟨rfl, rfl⟩ := h
      obtain ⟨segE, rfl, hst, hsv, hg, hlo, hcg, hge, htg, hrel⟩ := ih .Operand c s cE uE hp
      refine ⟨segE ++ [COp.Print], by simp, by simpa [delta] using hst, hsv, hg, hlo, hcg,
        ?_, ?_, ?_⟩
      · intro op hop
        rcases List.mem_append.mp hop with h1 | h2
        · exact hge op h1
        · simp at h2; subst h2; trivial
      · refine chunkTargetsLE_append ?_ ?_
        · exact chunkTargetsLE_mono (by simp only [List.length_append, List.length_cons, List.length_nil]; omega) htg
        · simp [chunkTargetsLE, opTargetsLE]
      · intro d v
        simp only [compileExpr]
        rw [hrel d v]
        simp [chunkEmit, List.map_append, relocOp]
  | Call p a ih1 ih2 =>
    intro pos c s c₁ s₁ h
    simp only [compileExpr] at h
    cases hp : compileExpr p .Operand c s with
    | error m => rw [hp] at h; simp at h
    | ok r1 =>
      obtain ⟨cP, uP⟩ := r1
      rw [hp] at h
      dsimp only at h
      cases hq : compileExpr a .Operand cP uP with
      | error m => rw [hq] at h; simp at h
      | ok r2 =>
        obtain ⟨cA, uA⟩ := r2
        rw [hq] at h
        simp only [chunkEmit, Except.ok.injEq, Prod.mk.injEq] at h
        obtain ⟨rfl, rfl⟩ := h
        obtain ⟨segP, rfl, hst1, hsv1, hg1, hlo1, hcg1, hge1, htg1, hrel1⟩ :=
          ih1 .Operand c s cP uP hp
        obtain ⟨segA, rfl, hst2, hsv2, hg2, hlo2, hcg2, hge2, htg2, hrel2⟩ :=
          ih2 .Operand (c ++ segP) uP cA uA hq
        have d1 := delta_pos p
        have d2 := delta_pos a
        refine ⟨segP ++ segA ++
          [if pos = ExprPos.Tail ∧ 0 < uA.pop.pop.call_depth then COp.TailCall else COp.Call],
          by simp, ?_, ?_, ?_, ?_, ?_, ?_, ?_, ?_⟩
        · simp only [CompilerState.push, CompilerState.pop, delta]
          omega
        · simpa [CompilerState.push, CompilerState.pop, hsv2] using hsv1
        · simpa [CompilerState.push, CompilerState.pop, hg2] using hg1
        · simpa [CompilerState.push, CompilerState.pop, hlo2] using hlo1
        · simpa [CompilerState.push, CompilerState.pop] using callGrows_trans hcg1 hcg2
        · intro op hop
          rcases List.mem_append.mp hop with h1 | h2
          · rcases List.mem_append.mp h1 with h3 | h4
            · exact hge1 op h3
            · exact opAddrsGE_mono (by simp only [List.length_append]; omega) (hge2 op h4)
          · simp at h2; subst h2; split <;> trivial
        · refine chunkTargetsLE_append (chunkTargetsLE_append ?_ ?_) ?_
          · exact chunkTargetsLE_mono (by simp only [List.length_append, List.length_cons, List.length_nil]; omega) htg1
          · exact chunkTargetsLE_mono (by simp only [List.length_append, List.length_cons, List.length_nil]; omega) htg2
          · simp only [chunkTargetsLE, List.all_cons, List.all_nil, Bool.and_true]
            split <;> rfl
        · intro d v
          simp only [compileExpr]
          rw [hrel1 d v]
          dsimp only
          rw [hrel2 (d ++ segP.map (relocOp c.length d.length)) v]
          have hseg : segA.map (relocOp (c ++ segP).length (d ++ segP.map (relocOp c.length d.length)).length) = segA.map (relocOp c.length d.length) := by
            have := @seg_shift c.length segP.length d.length segA
              (by simpa using hge2)
            simpa using this
          rw [hseg]
          simp only [chunkEmit, List.map_append, List.append_assoc, List.map_cons,
            List.map_nil, CompilerState.pop, CompilerState.push, CompilerState.call_depth]
          by_cases hP : pos = ExprPos.Tail ∧ 0 < uA.call_stack.length
          · simp [hP, relocOp]
          · simp [hP, relocOp]
  | Let var e1 e2 ih1 ih2 =>
    intro pos c s c₁ s₁ h
    simp only [compileExpr] at h
    cases hp : compileExpr e1 .Operand c s with
    | error m => rw [hp] at h; simp at h
    | ok r1 =>
      obtain ⟨cE, uE⟩ := r1
      rw [hp] at h
      dsimp only at h
      cases hq : compileExpr e2 .Tail cE (uE.begin_scope var) with
      | error m => rw [hq] at h; simp at h
      | ok r2 =>
        obtain ⟨cB, uB⟩ := r2
        rw [hq] at h
        simp only [Except.ok.injEq, Prod.mk.injEq] at h
        obtain ⟨rfl, rfl⟩ := h
        obtain ⟨seg1, rfl, hst1, hsv1, hg1, hlo1, hcg1, hge1, htg1, hrel1⟩ :=
          ih1 .Operand c s cE uE hp
        obtain ⟨seg2, rfl, hst2, hsv2, hg2, hlo2, hcg2, hge2, htg2, hrel2⟩ :=
          ih2 .Tail (c ++ seg1) (uE.begin_scope var) cB uB hq
        obtain ⟨hrlo, hrg⟩ := scope_restore uE var uB hlo2 hg2
        refine ⟨seg1 ++ seg2, by simp, ?_, ?_, ?_, ?_, ?_, ?_, ?_, ?_⟩
        · rw [end_scope_stack_top, hst2, begin_scope_stack_top, hst1, delta]
          omega
        · rw [end_scope_save, hsv2, begin_scope_save, hsv1]
        · rw [hrg, hg1]
        · rw [hrlo, hlo1]
        · rw [end_scope_call]
          refine callGrows_trans hcg1 ?_
          have := hcg2
          rwa [begin_scope_call] at this
        · intro op hop
          rcases List.mem_append.mp hop with h1 | h2
          · exact hge1 op h1
          · exact opAddrsGE_mono (by simp only [List.length_append]; omega) (hge2 op h2)
        · refine chunkTargetsLE_append ?_ ?_
          · exact chunkTargetsLE_mono
              (by simp only [List.length_append, List.length_cons, List.length_nil]; omega) htg1
          · exact chunkTargetsLE_mono
              (by simp only [List.length_append, List.length_cons, List.length_nil]; omega) htg2
        · intro d v
          simp only [compileExpr]
          rw [hrel1 d v]
          dsimp only
          rw [begin_scope_save_comm]
          rw [hrel2 (d ++ seg1.map (relocOp c.length d.length)) v]
          have hseg : seg2.map (relocOp (c ++ seg1).length
              (d ++ seg1.map (relocOp c.length d.length)).length) =
              seg2.map (relocOp c.length d.length) := by
            have := @seg_shift c.length seg1.length d.length seg2
              (by simpa using hge2)
            simpa using this
          rw [hseg]
          simp only [List.map_append, List.append_assoc, Except.ok.injEq, Prod.mk.injEq]
          exact ⟨trivial, end_scope_save_comm uB v⟩
  | If g cq alt ihg ihc iha =>
    intro pos c s c₁ s₁ h
    simp only [compileExpr] at h
    cases hpg : compileExpr g .Operand c s with
    | error m => rw [hpg] at h; simp at h
    | ok rG =>
      obtain ⟨cG, uG⟩ := rG
      rw [hpg] at h
      dsimp only [chunkEmit, chunkNextAddress] at h
      cases hpa : compileExpr alt .Tail (cG ++ [COp.JumpTrue 0]) (uG.pop.saveStack) with
      | error m => rw [hpa] at h; simp at h
      | ok rA =>
        obtain ⟨cA, uA⟩ := rA
        rw [hpa] at h
        dsimp only [chunkEmit, chunkNextAddress] at h
        cases hpc : compileExpr cq .Tail (cA ++ [COp.Jump 0]) uA.restoreStack with
        | error m => rw [hpc] at h; simp at h
        | ok rC =>
          obtain ⟨cC, uC⟩ := rC
          rw [hpc] at h
          simp only [Except.ok.injEq, Prod.mk.injEq] at h
          obtain ⟨rfl, rfl⟩ := h
          obtain ⟨segG, rfl, hst1, hsv1, hg1, hlo1, hcg1, hge1, htg1, hrel1⟩ :=
            ihg .Operand c s cG uG hpg
          obtain ⟨segB, rfl, hst2, hsv2, hg2, hlo2, hcg2, hge2, htg2, hrel2⟩ :=
            iha .Tail ((c ++ segG) ++ [COp.JumpTrue 0]) (uG.pop.saveStack) cA uA hpa
          obtain ⟨segC, rfl, hst3, hsv3, hg3, hlo3, hcg3, hge3, htg3, hrel3⟩ :=
            ihc .Tail ((((c ++ segG) ++ [COp.JumpTrue 0]) ++ segB) ++ [COp.Jump 0])
              uA.restoreStack cC uC hpc
          have dg := delta_pos g
          have dc := delta_pos cq
          have hsvA : uA.save_stack = (uG.stack_top - 1) :: uG.save_stack := by
            rw [hsv2]; rfl
          have hres : uA.restoreStack =
              { uA with stack_top := uG.stack_top - 1, save_stack := uG.save_stack } :=
            restoreStack_of uA hsvA
          have hst3' : uC.stack_top = uG.stack_top - 1 + delta cq := by
            simpa [hres] using hst3
          have hsv3' : uC.save_stack = uG.save_stack := by simpa [hres] using hsv3
          have hg2' : uA.globals = uG.globals := by simpa using hg2
          have hlo2' : uA.locals = uG.locals := by simpa using hlo2
          have hcg2' : callGrows uG.call_stack uA.call_stack := by simpa using hcg2
          have hg3' : uC.globals = uA.globals := by simpa [hres] using hg3
          have hlo3' : uC.locals = uA.locals := by simpa [hres] using hlo3
          have hcg3' : callGrows uA.call_stack uC.call_stack := by simpa [hres] using hcg3
          refine ⟨segG ++ [COp.JumpTrue (c.length + segG.length + segB.length + 2)] ++ segB ++
              [COp.Jump (c.length + segG.length + segB.length + 2 + segC.length)] ++ segC,
              ?_, ?_, ?_, ?_, ?_, ?_, ?_, ?_, ?_⟩
          · have hs1 : ((((c ++ segG) ++ [COp.JumpTrue 0]) ++ segB) ++ [COp.Jump 0]) ++ segC =
                (c ++ segG) ++ COp.JumpTrue 0 :: (segB ++ COp.Jump 0 :: segC) := by
              simp
            rw [hs1, chunkPatch_at (c ++ segG) (segB ++ COp.Jump 0 :: segC) (COp.JumpTrue 0)
              _ _ rfl]
            dsimp only
            have hs2 : (c ++ segG) ++ COp.JumpTrue
                  (((((c ++ segG) ++ [COp.JumpTrue 0]) ++ segB) ++ [COp.Jump 0]).length) ::
                  (segB ++ COp.Jump 0 :: segC) =
                ((c ++ segG) ++ COp.JumpTrue
                  (((((c ++ segG) ++ [COp.JumpTrue 0]) ++ segB) ++ [COp.Jump 0]).length) ::
                  segB) ++ COp.Jump 0 :: segC := by
              simp
            rw [hs2, chunkPatch_at _ segC (COp.Jump 0) _ _
              (by simp only [List.length_append, List.length_cons, List.length_nil]; omega)]
            dsimp only
            simp only [List.append_assoc, List.cons_append, List.singleton_append,
              List.length_append, List.length_cons, List.length_nil, List.nil_append,
              List.append_right_inj, List.cons.injEq, COp.JumpTrue.injEq, COp.Jump.injEq]
            exact ⟨by omega, by omega, trivial⟩
          · simp only [delta]
            omega
          · rw [hsv3', ← hsv1]
          · rw [hg3', hg2', hg1]
          · rw [hlo3', hlo2', hlo1]
          · exact callGrows_trans hcg1 (callGrows_trans hcg2' hcg3')
          · intro op hop
            simp only [List.append_assoc, List.cons_append, List.singleton_append,
              List.nil_append, List.mem_append, List.mem_cons, List.mem_singleton] at hop
            rcases hop with h1 | h2 | h3 | h4 | h5
            · exact hge1 op h1
            · subst h2; simp only [opAddrsGE]; omega
            · exact opAddrsGE_mono (by simp only [List.length_append, List.length_cons]; omega)
                (hge2 op h3)
            · subst h4; simp only [opAddrsGE]; omega
            · refine opAddrsGE_mono ?_ (hge3 op h5)
              simp only [List.length_append, List.length_cons, List.length_nil]
              omega
          · refine chunkTargetsLE_append (chunkTargetsLE_append (chunkTargetsLE_append
              (chunkTargetsLE_append ?_ ?_) ?_) ?_) ?_
            · exact chunkTargetsLE_mono
                (by simp only [List.length_append, List.length_cons, List.length_nil]; omega) htg1
            · simp only [chunkTargetsLE, List.all_cons, List.all_nil, Bool.and_true,
                opTargetsLE, decide_eq_true_eq]
              simp only [List.length_append, List.length_cons, List.length_nil]
              omega
            · exact chunkTargetsLE_mono
                (by simp only [List.length_append, List.length_cons, List.length_nil]; omega) htg2
            · simp only [chunkTargetsLE, List.all_cons, List.all_nil, Bool.and_true,
                opTargetsLE, decide_eq_true_eq]
              simp only [List.length_append, List.length_cons, List.length_nil]
              omega
            · exact chunkTargetsLE_mono
                (by simp only [List.length_append, List.length_cons, List.length_nil]; omega) htg3
          · intro d v
            simp only [compileExpr]
            rw [hrel1 d v]
            dsimp only [chunkEmit, chunkNextAddress, CompilerState.pop, CompilerState.saveStack]
            have hrel2' := hrel2
            simp only [CompilerState.pop, CompilerState.saveStack] at hrel2'
            rw [hrel2' ((d ++ segG.map (relocOp c.length d.length)) ++ [COp.JumpTrue 0])
              ((uG.stack_top - 1) :: v)]
            dsimp only [chunkEmit, chunkNextAddress, CompilerState.restoreStack]
            have hsegB : segB.map (relocOp ((c ++ segG) ++ [COp.JumpTrue 0]).length
                ((d ++ segG.map (relocOp c.length d.length)) ++ [COp.JumpTrue 0]).length) =
                segB.map (relocOp c.length d.length) :=
              seg_shift_flex hge2
                (by simp only [List.length_append, List.length_cons, List.length_nil]; omega)
                (by
                  simp only [List.length_append, List.length_cons, List.length_nil,
                    List.length_map]
                  omega)
            rw [hsegB]
            have hrel3' := hrel3
            simp only [hres] at hrel3'
            rw [hrel3' ((((d ++ segG.map (relocOp c.length d.length)) ++ [COp.JumpTrue 0]) ++
              segB.map (relocOp c.length d.length)) ++ [COp.Jump 0]) v]
            dsimp only
            have hsegC : segC.map (relocOp
                (((((c ++ segG) ++ [COp.JumpTrue 0]) ++ segB) ++ [COp.Jump 0]).length)
                (((((d ++ segG.map (relocOp c.length d.length)) ++ [COp.JumpTrue 0]) ++
                  segB.map (relocOp c.length d.length)) ++ [COp.Jump 0]).length)) =
                segC.map (relocOp c.length d.length) :=
              seg_shift_flex hge3
                (by simp only [List.length_append, List.length_cons, List.length_nil]; omega)
                (by
                  simp only [List.length_append, List.length_cons, List.length_nil,
                    List.length_map]
                  omega)
            rw [hsegC]
            have hd1 : ((((d ++ segG.map (relocOp c.length d.length)) ++ [COp.JumpTrue 0]) ++
                segB.map (relocOp c.length d.length)) ++ [COp.Jump 0]) ++
                segC.map (relocOp c.length d.length) =
                (d ++ segG.map (relocOp c.length d.length)) ++ COp.JumpTrue 0 ::
                  (segB.map (relocOp c.length d.length) ++ COp.Jump 0 ::
                    segC.map (relocOp c.length d.length)) := by
              simp
            rw [hd1]
            rw [chunkPatch_at (d ++ segG.map (relocOp c.length d.length))
              (segB.map (relocOp c.length d.length) ++ COp.Jump 0 ::
                segC.map (relocOp c.length d.length)) (COp.JumpTrue 0) _ _ rfl]
            dsimp only
            rw [show (d ++ segG.map (relocOp c.length d.length)) ++ COp.JumpTrue
                  (((((d ++ segG.map (relocOp c.length d.length)) ++ [COp.JumpTrue 0]) ++
                    segB.map (relocOp c.length d.length)) ++ [COp.Jump 0]).length) ::
                  (segB.map (relocOp c.length d.length) ++ COp.Jump 0 ::
                    segC.map (relocOp c.length d.length)) =
                ((d ++ segG.map (relocOp c.length d.length)) ++ COp.JumpTrue
                  (((((d ++ segG.map (relocOp c.length d.length)) ++ [COp.JumpTrue 0]) ++
                    segB.map (relocOp c.length d.length)) ++ [COp.Jump 0]).length) ::
                  segB.map (relocOp c.length d.length)) ++ COp.Jump 0 ::
                  segC.map (relocOp c.length d.length) from by simp]
            rw [chunkPatch_at _ (segC.map (relocOp c.length d.length)) (COp.Jump 0) _ _
              (by
                simp only [List.length_append, List.length_cons, List.length_nil,
                  List.length_map]
                omega)]
            dsimp only
            simp only [List.map_append, List.map_cons, List.append_assoc, List.cons_append,
              List.singleton_append, List.length_append, List.length_cons, List.length_nil,
              List.length_map, List.nil_append, relocOp, relocAddr,
              Except.ok.injEq, Prod.mk.injEq, List.append_right_inj, List.cons.injEq,
              COp.JumpTrue.injEq, COp.Jump.injEq]
            refine ⟨⟨by omega, by omega, trivial⟩, trivial⟩
  | Proc var vt body ihb =>
    intro pos c s c₁ s₁ h
    simp only [compileExpr] at h
    dsimp only [chunkEmit, chunkNextAddress] at h
    cases hpb : compileExpr body .Tail (c ++ [COp.Jump 0]) (s.begin_proc "" var) with
    | error m => rw [hpb] at h; simp at h
    | ok rB =>
      obtain ⟨cB, uB⟩ := rB
      rw [hpb] at h
      dsimp only [chunkEmit, chunkNextAddress] at h
      obtain ⟨segBody, rfl, hstB, hsvB, hgB, hloB, hcgB, hgeB, htgB, hrelB⟩ :=
        ihb .Tail (c ++ [COp.Jump 0]) (s.begin_proc "" var) cB uB hpb
      have hbp_cs : (s.begin_proc "" var).call_stack =
          (⟨s.stack_top, s.locals, []⟩ : CFrame) :: s.call_stack := rfl
      rw [hbp_cs] at hcgB
      cases hcst : uB.call_stack with
      | nil => rw [hcst] at hcgB; cases hcgB
      | cons f' cs' =>
        rw [hcst] at hcgB
        cases hcgB with
        | cons hf hrest =>
          obtain ⟨hfst, hflo, ex, hfcap⟩ := hf
          have hep : uB.end_proc = (f'.captures,
              { uB with stack_top := f'.stack_top, locals := f'.locals,
                        call_stack := cs' }) := by
            unfold CompilerState.end_proc
            rw [hcst]
          rw [hep] at h
          dsimp only at h
          simp only [Except.ok.injEq, Prod.mk.injEq] at h
          obtain ⟨rfl, rfl⟩ := h
          have hchunk1 : ((c ++ [COp.Jump 0]) ++ segBody) ++ [COp.Return] ++
              [COp.MakeProc (c ++ [COp.Jump 0]).length (f'.captures.map
                (fun cp => if cp.is_local then Capture.Local cp.index
                           else Capture.Capture cp.index))] =
              c ++ COp.Jump 0 :: (segBody ++ [COp.Return] ++
                [COp.MakeProc (c ++ [COp.Jump 0]).length (f'.captures.map
                  (fun cp => if cp.is_local then Capture.Local cp.index
                             else Capture.Capture cp.index))]) := by
            simp
          refine ⟨[COp.Jump (c.length + segBody.length + 2)] ++ segBody ++
            [COp.Return, COp.MakeProc (c.length + 1) (f'.captures.map
              (fun cp => if cp.is_local then Capture.Local cp.index
                         else Capture.Capture cp.index))],
            ?_, ?_, ?_, ?_, ?_, ?_, ?_, ?_, ?_⟩
          · rw [hchunk1, chunkPatch_at c _ (COp.Jump 0) _ _ rfl]
            dsimp only
            simp only [List.append_assoc, List.cons_append, List.singleton_append,
              List.length_append, List.length_cons, List.length_nil, List.nil_append,
              List.append_right_inj, List.cons.injEq, COp.Jump.injEq, COp.MakeProc.injEq]
            exact ⟨by omega, trivial⟩
          · simp only [CompilerState.push, delta]
            rw [hfst]
          · simpa [CompilerState.push] using hsvB
          · simpa [CompilerState.push] using hgB
          · simp only [CompilerState.push]
            rw [hflo]
          · simpa [CompilerState.push] using hrest
          · intro op hop
            simp only [List.append_assoc, List.cons_append, List.singleton_append,
              List.nil_append, List.mem_append, List.mem_cons, List.mem_singleton,
              List.not_mem_nil, or_false] at hop
            rcases hop with h1 | h2 | h3 | h4
            · subst h1; simp only [opAddrsGE]; omega
            · refine opAddrsGE_mono ?_ (hgeB op h2)
              simp only [List.length_append, List.length_cons, List.length_nil]
              omega
            · subst h3; trivial
            · subst h4; simp only [opAddrsGE]; omega
          · refine chunkTargetsLE_append (chunkTargetsLE_append ?_ ?_) ?_
            · simp only [chunkTargetsLE, List.all_cons, List.all_nil, Bool.and_true,
                opTargetsLE, decide_eq_true_eq]
              simp only [List.length_append, List.length_cons, List.length_nil]
              omega
            · refine chunkTargetsLE_mono ?_ htgB
              simp only [List.length_append, List.length_cons, List.length_nil]
              omega
            · simp [chunkTargetsLE, opTargetsLE]
          · intro d v
            simp only [compileExpr]
            dsimp only [chunkEmit, chunkNextAddress]
            have hbpv : ({ s with save_stack := v } : CompilerState).begin_proc "" var =
                { s.begin_proc "" var with save_stack := v } := rfl
            rw [hbpv, hrelB (d ++ [COp.Jump 0]) v]
            dsimp only
            have hepv : ({ uB with save_stack := v } : CompilerState).end_proc =
                (f'.captures,
                  { uB with
                      stack_top := f'.stack_top
                      locals := f'.locals
                      call_stack := cs'
                      save_stack := v }) := by
              unfold CompilerState.end_proc
              dsimp only
              rw [hcst]
            rw [hepv]
            dsimp only
            have hsegB : segBody.map (relocOp (c ++ [COp.Jump 0]).length
                (d ++ [COp.Jump 0]).length) = segBody.map (relocOp c.length d.length) :=
              seg_shift_flex hgeB
                (by simp only [List.length_append, List.length_cons, List.length_nil]; omega)
                (by simp only [List.length_append, List.length_cons, List.length_nil]; omega)
            rw [hsegB]
            have hd1 : ((d ++ [COp.Jump 0]) ++ segBody.map (relocOp c.length d.length)) ++
                [COp.Return] ++ [COp.MakeProc (d ++ [COp.Jump 0]).length (f'.captures.map
                  (fun cp => if cp.is_local then Capture.Local cp.index
                             else Capture.Capture cp.index))] =
                d ++ COp.Jump 0 :: (segBody.map (relocOp c.length d.length) ++
                  [COp.Return] ++ [COp.MakeProc (d ++ [COp.Jump 0]).length (f'.captures.map
                    (fun cp => if cp.is_local then Capture.Local cp.index
                               else Capture.Capture cp.index))]) := by
              simp
            rw [hd1, chunkPatch_at d _ (COp.Jump 0) _ _ rfl]
            dsimp only
            simp only [List.map_append, List.map_cons, List.map_nil, List.append_assoc,
              List.cons_append, List.singleton_append, List.length_append, List.length_cons,
              List.length_nil, List.length_map, List.nil_append, relocOp, relocAddr,
              Except.ok.injEq, Prod.mk.injEq, List.append_right_inj, List.cons.injEq,
              COp.Jump.injEq, COp.MakeProc.injEq]
            refine ⟨⟨by omega, trivial, ⟨by omega, trivial⟩, trivial⟩, ?_⟩
            simp [CompilerState.push]
  | LetRec rt name var vt pbody lbody ihp ihl =>
    intro pos c s c₁ s₁ h
    simp only [compileExpr] at h
    dsimp only [chunkEmit, chunkNextAddress] at h
    cases hpb : compileExpr pbody .Tail (c ++ [COp.Jump 0]) (s.begin_proc name var) with
    | error m => rw [hpb] at h; simp at h
    | ok rB =>
      obtain ⟨cB, uB⟩ := rB
      rw [hpb] at h
      dsimp only [chunkEmit, chunkNextAddress] at h
      obtain ⟨segBody, rfl, hstB, hsvB, hgB, hloB, hcgB, hgeB, htgB, hrelB⟩ :=
        ihp .Tail (c ++ [COp.Jump 0]) (s.begin_proc name var) cB uB hpb
      have hbp_cs : (s.begin_proc name var).call_stack =
          (⟨s.stack_top, s.locals, []⟩ : CFrame) :: s.call_stack := rfl
      rw [hbp_cs] at hcgB
      cases hcst : uB.call_stack with
      | nil => rw [hcst] at hcgB; cases hcgB
      | cons f' cs' =>
        rw [hcst] at hcgB
        cases hcgB with
        | cons hf hrest =>
          obtain ⟨hfst, hflo, ex, hfcap⟩ := hf
          have hep : uB.end_proc = (f'.captures,
              { uB with stack_top := f'.stack_top, locals := f'.locals,
                        call_stack := cs' }) := by
            unfold CompilerState.end_proc
            rw [hcst]
          rw [hep] at h
          dsimp only at h
          rw [show (((c ++ [COp.Jump 0]) ++ segBody) ++ [COp.Return]) ++
              [COp.MakeProc (c ++ [COp.Jump 0]).length (f'.captures.map
                (fun cp => if cp.is_local then Capture.Local cp.index
                           else Capture.Capture cp.index))] =
              c ++ COp.Jump 0 :: (segBody ++ COp.Return ::
                [COp.MakeProc (c ++ [COp.Jump 0]).length (f'.captures.map
                  (fun cp => if cp.is_local then Capture.Local cp.index
                             else Capture.Capture cp.index))]) from by simp] at h
          rw [chunkPatch_at c _ (COp.Jump 0) _ _ rfl] at h
          dsimp only at h
          cases hql : compileExpr lbody .Tail
              (c ++ COp.Jump ((((c ++ [COp.Jump 0]) ++ segBody) ++ [COp.Return]).length) ::
                (segBody ++ COp.Return ::
                  [COp.MakeProc (c ++ [COp.Jump 0]).length (f'.captures.map
                    (fun cp => if cp.is_local then Capture.Local cp.index
                               else Capture.Capture cp.index))]))
              ((({ uB with stack_top := f'.stack_top, locals := f'.locals, call_stack := cs' } : CompilerState).push).begin_scope name) with
          | error m => rw [hql] at h; simp at h
          | ok rL =>
            obtain ⟨cL, uL⟩ := rL
            rw [hql] at h
            simp only [Except.ok.injEq, Prod.mk.injEq] at h
            obtain ⟨rfl, rfl⟩ := h
            obtain ⟨segL, rfl, hstL, hsvL, hgL, hloL, hcgL, hgeL, htgL, hrelL⟩ :=
              ihl .Tail _ _ cL uL hql
            obtain ⟨hrlo, hrg⟩ := scope_restore
              (({ uB with stack_top := f'.stack_top, locals := f'.locals, call_stack := cs' } : CompilerState).push) name uL hloL hgL
            refine ⟨[COp.Jump (c.length + segBody.length + 2)] ++ segBody ++
              [COp.Return, COp.MakeProc (c.length + 1) (f'.captures.map
                (fun cp => if cp.is_local then Capture.Local cp.index
                           else Capture.Capture cp.index))] ++ segL,
              ?_, ?_, ?_, ?_, ?_, ?_, ?_, ?_, ?_⟩
            · simp only [List.append_assoc, List.cons_append, List.singleton_append,
                List.length_append, List.length_cons, List.length_nil, List.nil_append,
                List.append_right_inj, List.cons.injEq, COp.Jump.injEq, COp.MakeProc.injEq]
              exact ⟨by omega, trivial⟩
            · rw [end_scope_stack_top, hstL, begin_scope_stack_top]
              simp only [CompilerState.push, delta]
              rw [hfst]
              dsimp only
              omega
            · rw [end_scope_save, hsvL, begin_scope_save]
              simpa [CompilerState.push] using hsvB
            · rw [hrg]
              simpa [CompilerState.push] using hgB
            · rw [hrlo]
              simp only [CompilerState.push]
              rw [hflo]
            · rw [end_scope_call]
              have h2 : callGrows cs' uL.call_stack := by
                have := hcgL
                rwa [begin_scope_call] at this
              exact callGrows_trans hrest h2
            · intro op hop
              simp only [List.append_assoc, List.cons_append, List.singleton_append,
                List.nil_append, List.mem_append, List.mem_cons, List.mem_singleton,
                List.not_mem_nil, or_false] at hop
              rcases hop with h1 | h2 | h3 | h4 | h5
              · subst h1; simp only [opAddrsGE]; omega
              · refine opAddrsGE_mono ?_ (hgeB op h2)
                simp only [List.length_append, List.length_cons, List.length_nil]
                omega
              · subst h3; trivial
              · subst h4; simp only [opAddrsGE]; omega
              · refine opAddrsGE_mono ?_ (hgeL op h5)
                simp only [List.length_append, List.length_cons, List.length_nil]
                omega
            · refine chunkTargetsLE_append (chunkTargetsLE_append (chunkTargetsLE_append ?_ ?_)
                ?_) ?_
              · simp only [chunkTargetsLE, List.all_cons, List.all_nil, Bool.and_true,
                  opTargetsLE, decide_eq_true_eq]
                simp only [List.length_append, List.length_cons, List.length_nil]
                omega
              · refine chunkTargetsLE_mono ?_ htgB
                simp only [List.length_append, List.length_cons, List.length_nil]
                omega
              · simp [chunkTargetsLE, opTargetsLE]
              · refine chunkTargetsLE_mono ?_ htgL
                simp only [List.length_append, List.length_cons, List.length_nil]
                omega
            · intro d v
              simp only [compileExpr]
              dsimp only [chunkEmit, chunkNextAddress]
              have hbpv : ({ s with save_stack := v } : CompilerState).begin_proc name var =
                  { s.begin_proc name var with save_stack := v } := rfl
              rw [hbpv, hrelB (d ++ [COp.Jump 0]) v]
              dsimp only
              have hepv : ({ uB with save_stack := v } : CompilerState).end_proc =
                  (f'.captures,
                    { uB with
                        stack_top := f'.stack_top
                        locals := f'.locals
                        call_stack := cs'
                        save_stack := v }) := by
                unfold CompilerState.end_proc
                dsimp only
                rw [hcst]
              rw [hepv]
              dsimp only
              have hsegB : segBody.map (relocOp (c ++ [COp.Jump 0]).length
                  (d ++ [COp.Jump 0]).length) = segBody.map (relocOp c.length d.length) :=
                seg_shift_flex hgeB
                  (by simp only [List.length_append, List.length_cons, List.length_nil]; omega)
                  (by simp only [List.length_append, List.length_cons, List.length_nil]; omega)
              rw [hsegB]
              rw [show (((d ++ [COp.Jump 0]) ++ segBody.map (relocOp c.length d.length)) ++
                  [COp.Return]) ++
                  [COp.MakeProc (d ++ [COp.Jump 0]).length (f'.captures.map
                    (fun cp => if cp.is_local then Capture.Local cp.index
                               else Capture.Capture cp.index))] =
                  d ++ COp.Jump 0 :: (segBody.map (relocOp c.length d.length) ++ COp.Return ::
                    [COp.MakeProc (d ++ [COp.Jump 0]).length (f'.captures.map
                      (fun cp => if cp.is_local then Capture.Local cp.index
                                 else Capture.Capture cp.index))]) from by simp]
              rw [chunkPatch_at d _ (COp.Jump 0) _ _ rfl]
              dsimp only
              have hsc : (({ uB with stack_top := f'.stack_top, locals := f'.locals, call_stack := cs', save_stack := v } : CompilerState).push).begin_scope name =
                  { (({ uB with stack_top := f'.stack_top, locals := f'.locals, call_stack := cs' } : CompilerState).push).begin_scope name with save_stack := v } := by
                rw [← begin_scope_save_comm]
                rfl
              rw [hsc]
              rw [hrelL (d ++ COp.Jump ((((d ++ [COp.Jump 0]) ++
                  segBody.map (relocOp c.length d.length)) ++ [COp.Return]).length) ::
                  (segBody.map (relocOp c.length d.length) ++ COp.Return ::
                    [COp.MakeProc (d ++ [COp.Jump 0]).length (f'.captures.map
                      (fun cp => if cp.is_local then Capture.Local cp.index
                                 else Capture.Capture cp.index))])) v]
              have hsegL : segL.map (relocOp
                  ((c ++ COp.Jump ((((c ++ [COp.Jump 0]) ++ segBody) ++ [COp.Return]).length) ::
                    (segBody ++ COp.Return ::
                      [COp.MakeProc (c ++ [COp.Jump 0]).length (f'.captures.map
                        (fun cp => if cp.is_local then Capture.Local cp.index
                                   else Capture.Capture cp.index))])).length)
                  ((d ++ COp.Jump ((((d ++ [COp.Jump 0]) ++
                    segBody.map (relocOp c.length d.length)) ++ [COp.Return]).length) ::
                    (segBody.map (relocOp c.length d.length) ++ COp.Return ::
                      [COp.MakeProc (d ++ [COp.Jump 0]).length (f'.captures.map
                        (fun cp => if cp.is_local then Capture.Local cp.index
                                   else Capture.Capture cp.index))])).length)) =
                  segL.map (relocOp c.length d.length) :=
                seg_shift_flex hgeL
                  (by
                    simp only [List.length_append, List.length_cons, List.length_nil]
                    omega)
                  (by
                    simp only [List.length_append, List.length_cons, List.length_nil,
                      List.length_map]
                    omega)
              rw [hsegL]
              simp only [List.map_append, List.map_cons, List.map_nil, List.append_assoc,
                List.cons_append, List.singleton_append, List.length_append, List.length_cons,
                List.length_nil, List.length_map, List.nil_append, relocOp, relocAddr,
                Except.ok.injEq, Prod.mk.injEq, List.append_right_inj, List.cons.injEq,
                COp.Jump.injEq, COp.MakeProc.injEq]
              exact ⟨⟨by omega, trivial, ⟨by omega, trivial⟩, trivial⟩, end_scope_save_comm uL v⟩

/-! ## C3 — stack-counter growth of the compiler -/

/-- Counterexample to C3 as stated: compiling `let x = 1 in 2` from the
fresh state raises `stack_top` from 0 to 2, not to 1 — the bound value
stays on the stack beneath the body's result. -/
theorem let_stack_top_cex :
    compileExpr (.Let "x" (.Const 1) (.Const 2)) ExprPos.Tail [] CompilerState.new =
      .ok ([COp.PushValue (CValue.Number 1), COp.PushValue (CValue.Number 2)],
        ⟨2, [], [], none, []⟩) ∧ (2 : Nat) ≠ 0 + 1 :=
  ⟨rfl, by decide⟩

/-- C3 (amended): compiling a complete expression raises the
compile-time stack counter by exactly `delta e`: one for literals,
variables, `Diff`, `IsZero`, `If`, `Call` and `Proc` (whenever their
sub-expressions are also one), but `delta e1 + delta e2` for a `Let`
(the binding stays beneath the result, so typically two) and
`1 + delta let_body` for a `LetRec`. -/
theorem stack_top_delta_amended (e : PExpr) (pos : ExprPos) (c : List COp)
    (s : CompilerState) :
    match compileExpr e pos c s with
    | .ok (_, s₁) => s₁.stack_top = s.stack_top + delta e
    | .error _ => True := by
  cases h : compileExpr e pos c s with
  | ok r =>
    obtain ⟨c₁, s₁⟩ := r
    obtain ⟨seg, -, hst, -⟩ := master e pos c s c₁ s₁ h
    exact hst
  | error m => trivial

/-! ## C5 — jump targets of a compiled chunk -/

/-- Counterexample to C5 as stated: the whole program
`if 1 then 2 else 3` compiles with the forward `Jump` of the `If`
patched to address 5 = `chunk.len()`, which is not in `[0, chunk.len())`. -/
theorem jump_target_at_len_cex :
    compile (.If (.Const 1) (.Const 2) (.Const 3)) =
      .ok [COp.PushValue (CValue.Number 1), COp.JumpTrue 4,
           COp.PushValue (CValue.Number 3), COp.Jump 5,
           COp.PushValue (CValue.Number 2)] ∧
    ¬ (5 < [COp.PushValue (CValue.Number 1), COp.JumpTrue 4,
            COp.PushValue (CValue.Number 3), COp.Jump 5,
            COp.PushValue (CValue.Number 2)].length) :=
  ⟨rfl, by decide⟩

/-- C5 (amended): in every successfully compiled chunk, every `Jump`
and `JumpTrue` targets an address in the closed interval
`[0, chunk.len()]`; the upper bound `chunk.len()` itself is attained by
the forward branch of an `If` in tail position of the program (and is a
valid destination: the VM halts there). -/
theorem jump_targets_bounded_amended (e : PExpr) :
    match compile e with
    | .ok ops => chunkTargetsLE ops ops.length = true
    | .error _ => True := by
  unfold compile
  cases h : compileExpr e .Tail [] CompilerState.new with
  | error m => trivial
  | ok r =>
    obtain ⟨ops, s₁⟩ := r
    obtain ⟨seg, hpre, -, -, -, -, -, -, htg, -⟩ :=
      master e .Tail [] CompilerState.new ops s₁ h
    simp only [List.nil_append] at hpre
    subst hpre
    simpa using htg

/-! ## C2 — when `TailCall` is emitted -/

/-- Counterexample to C2 as stated: in
`proc (x: int) -( if zero?(x) then (x x) else 1 , 2 )` the call `(x x)`
sits in a branch of an `If` that is an operand of the subtraction — not
a tail position — yet the compiler emits `TailCall` for it (op index 8). -/
theorem tailcall_in_operand_if_cex :
    compile (.Proc "x" .Int (.Diff
      (.If (.IsZero (.Var "x")) (.Call (.Var "x") (.Var "x")) (.Const 1))
      (.Const 2))) =
    .ok [COp.Jump 12, COp.PushLocal 1, COp.IsZero, COp.JumpTrue 6,
         COp.PushValue (CValue.Number 1), COp.Jump 9, COp.PushLocal 1, COp.PushLocal 1,
         COp.TailCall, COp.PushValue (CValue.Number 2), COp.Diff, COp.Return,
         COp.MakeProc 1 []] ∧
    [COp.Jump 12, COp.PushLocal 1, COp.IsZero, COp.JumpTrue 6,
     COp.PushValue (CValue.Number 1), COp.Jump 9, COp.PushLocal 1, COp.PushLocal 1,
     COp.TailCall, COp.PushValue (CValue.Number 2), COp.Diff, COp.Return,
     COp.MakeProc 1 []].get? 8 = some COp.TailCall :=
  ⟨rfl, rfl⟩

/-- C2 (amended): a `Call` expression compiles to `TailCall` exactly
when its own position parameter is `Tail` and the compiler is inside at
least one proc (otherwise to plain `Call`); but the branches of an `If`,
the body of a `Let` and the bodies of a `LetRec` are compiled as `Tail`
unconditionally — they do not inherit the position of the enclosing
`If`/`Let`/`LetRec`, so a call in such a position is compiled as a tail
call even when the `If`/`Let` itself is an operand. -/
theorem tailCall_emission_amended (p a guard consq alt : PExpr) (var nm : String)
    (rt vt : LetType) (e1 e2 pb lb : PExpr) (pos : ExprPos) (c : List COp)
    (s : CompilerState) :
    (match compileExpr (.Call p a) pos c s with
     | .ok (c₁, _) =>
        (c₁.getLast? = some COp.TailCall ↔ (pos = ExprPos.Tail ∧ s.call_stack ≠ [])) ∧
        (c₁.getLast? = some COp.TailCall ∨ c₁.getLast? = some COp.Call)
     | .error _ => True) ∧
    compileExpr (.If guard consq alt) ExprPos.Operand c s =
      compileExpr (.If guard consq alt) ExprPos.Tail c s ∧
    compileExpr (.Let var e1 e2) ExprPos.Operand c s =
      compileExpr (.Let var e1 e2) ExprPos.Tail c s ∧
    compileExpr (.LetRec rt nm var vt pb lb) ExprPos.Operand c s =
      compileExpr (.LetRec rt nm var vt pb lb) ExprPos.Tail c s := by
  refine ⟨?_, rfl, rfl, rfl⟩
  simp only [compileExpr]
  cases hp : compileExpr p .Operand c s with
  | error m => trivial
  | ok r1 =>
    obtain ⟨cP, uP⟩ := r1
    dsimp only
    cases hq : compileExpr a .Operand cP uP with
    | error m => trivial
    | ok r2 =>
      obtain ⟨cA, uA⟩ := r2
      dsimp only [chunkEmit]
      obtain ⟨segP, -, -, -, -, -, hcg1, -⟩ := master p .Operand c s cP uP hp
      obtain ⟨segA, -, -, -, -, -, hcg2, -⟩ := master a .Operand cP uP cA uA hq
      have hlen : uA.call_stack.length = s.call_stack.length := by
        rw [callGrows_length hcg2, callGrows_length hcg1]
      have hdep : ({ uA with stack_top := uA.stack_top - 1 - 1 } :
          CompilerState).call_depth = uA.call_stack.length := rfl
      by_cases hcond : pos = ExprPos.Tail ∧ 0 < uA.call_stack.length
      · rw [if_pos (by simpa [CompilerState.pop, CompilerState.call_depth] using hcond)]
        constructor
        · constructor
          · intro
            refine ⟨hcond.1, ?_⟩
            have := hcond.2
            rw [hlen] at this
            exact List.ne_nil_of_length_pos this
          · intro
            exact List.getLast?_concat _
        · exact Or.inl (List.getLast?_concat _)
      · rw [if_neg (by simpa [CompilerState.pop, CompilerState.call_depth] using hcond)]
        constructor
        · constructor
          · intro hlast
            rw [List.getLast?_concat] at hlast
            cases hlast
          · intro hx
            exfalso
            refine hcond ⟨hx.1, ?_⟩
            rw [hlen]
            exact List.length_pos.mpr hx.2
        · exact Or.inr (List.getLast?_concat _)

/-! ## C4 — layout of a compiled `Proc` -/

/-- Counterexample to C4 as stated: `proc (x: int) 1` compiles to
`[Jump 3, PushValue 1, Return, MakeProc@3]`; the initial `Jump` is
patched to 3 — the index M of the `MakeProc` itself, which must execute
to push the procedure value — not to M+1 = 4 as the claim states. -/
theorem proc_patch_target_cex :
    compile (.Proc "x" .Int (.Const 1)) =
      .ok [COp.Jump 3, COp.PushValue (CValue.Number 1), COp.Return, COp.MakeProc 1 []] ∧
    [COp.Jump 3, COp.PushValue (CValue.Number 1), COp.Return,
      COp.MakeProc 1 []].get? 0 = some (COp.Jump 3) ∧ (3 : Nat) ≠ 3 + 1 :=
  ⟨rfl, rfl, by decide⟩

/-- C4 (amended): compiling a `Proc` emits a `Jump` placeholder, then
the body (compiled as tail, inside the proc: from `begin_proc`, starting
at address `c.len + 1`), then `Return`, then `MakeProc(start, captures)`
at index `M = c.len + |body| + 2`; the initial `Jump` is patched to `M`
itself — execution skips the embedded body and the `Return` but lands on
the `MakeProc`, which pushes the procedure value. -/
theorem proc_compilation_layout_amended (var : String) (vt : LetType) (body : PExpr)
    (pos : ExprPos) (c : List COp) (s : CompilerState) :
    match compileExpr (.Proc var vt body) pos c s with
    | .ok (c₁, _) => ∃ segBody uB caps,
        compileExpr body ExprPos.Tail (c ++ [COp.Jump 0]) (s.begin_proc "" var) =
          .ok ((c ++ [COp.Jump 0]) ++ segBody, uB) ∧
        c₁ = c ++ [COp.Jump (c.length + segBody.length + 2)] ++ segBody ++
          [COp.Return, COp.MakeProc (c.length + 1) caps]
    | .error _ => True := by
  simp only [compileExpr]
  dsimp only [chunkEmit, chunkNextAddress]
  cases hpb : compileExpr body .Tail (c ++ [COp.Jump 0]) (s.begin_proc "" var) with
  | error m => trivial
  | ok rB =>
    obtain ⟨cB, uB⟩ := rB
    dsimp only [chunkEmit, chunkNextAddress]
    obtain ⟨segBody, rfl, -⟩ := master body .Tail (c ++ [COp.Jump 0])
      (s.begin_proc "" var) cB uB hpb
    refine ⟨segBody, uB, (uB.end_proc.1.map
      (fun cp => if cp.is_local then Capture.Local cp.index
                 else Capture.Capture cp.index)), rfl, ?_⟩
    rw [show (((c ++ [COp.Jump 0]) ++ segBody) ++ [COp.Return]) ++
        [COp.MakeProc (c ++ [COp.Jump 0]).length (uB.end_proc.1.map
          (fun cp => if cp.is_local then Capture.Local cp.index
                     else Capture.Capture cp.index))] =
        c ++ COp.Jump 0 :: (segBody ++ COp.Return ::
          [COp.MakeProc (c ++ [COp.Jump 0]).length (uB.end_proc.1.map
            (fun cp => if cp.is_local then Capture.Local cp.index
                       else Capture.Capture cp.index))]) from by simp]
    rw [chunkPatch_at c _ (COp.Jump 0) _ _ rfl]
    dsimp only
    simp only [List.append_assoc, List.cons_append, List.singleton_append,
      List.length_append, List.length_cons, List.length_nil, List.nil_append,
      List.append_right_inj, List.cons.injEq, COp.Jump.injEq, COp.MakeProc.injEq]
    exact ⟨by omega, trivial⟩

/-! ## C8 — swapping the branches of an `If` -/

/-- Core of the `If`-swap relation: from a successful compilation of
`if e then a else b` (as a whole program), the chunk decomposes into the
guard code `E`, the alternate's code `B`, the consequent's code `A1` and
the two patched branch ops, and `if e then b else a` also compiles,
with the two (relocated) body segments exchanged and the branch targets
swapped accordingly. -/
theorem compile_if_swap_ok (e a b : PExpr) (L1 : List COp)
    (h : compile (.If e a b) = .ok L1) :
    ∃ E B A1 : List COp,
      L1 = E ++ [COp.JumpTrue (E.length + B.length + 2)] ++ B ++
        [COp.Jump (E.length + B.length + 2 + A1.length)] ++ A1 ∧
      compile (.If e b a) = .ok (E ++
        [COp.JumpTrue (E.length + A1.length + 2)] ++
        A1.map (relocOp (E.length + B.length + 2) (E.length + 1)) ++
        [COp.Jump (E.length + A1.length + 2 + B.length)] ++
        B.map (relocOp (E.length + 1) (E.length + A1.length + 2))) := by
  unfold compile at h
  simp only [compileExpr] at h
  cases he : compileExpr e .Operand [] CompilerState.new with
  | error m => rw [he] at h; simp at h
  | ok rE =>
    obtain ⟨cE, sE⟩ := rE
    rw [he] at h
    dsimp only [chunkEmit, chunkNextAddress] at h
    obtain ⟨segE, -, -, hsvE, -, -, hcgE, -⟩ :=
      master e .Operand [] CompilerState.new cE sE he
    have hcsE : sE.call_stack = [] := by
      have h0 : callGrows [] sE.call_stack := hcgE
      cases hx : sE.call_stack with
      | nil => rfl
      | cons f rest => rw [hx] at h0; cases h0
    have hsvE' : sE.save_stack = [] := hsvE
    cases hb : compileExpr b .Tail (cE ++ [COp.JumpTrue 0]) (sE.pop.saveStack) with
    | error m => rw [hb] at h; simp at h
    | ok rB =>
      obtain ⟨cB, uB⟩ := rB
      rw [hb] at h
      dsimp only [chunkEmit, chunkNextAddress] at h
      obtain ⟨segB, rfl, hstB, hsvB, hgB, hloB, hcgB, hgeB, htgB, hrelB⟩ :=
        master b .Tail (cE ++ [COp.JumpTrue 0]) (sE.pop.saveStack) cB uB hb
      have hsvB' : uB.save_stack = (sE.stack_top - 1) :: sE.save_stack := by
        rw [hsvB]; rfl
      have hres : uB.restoreStack =
          { uB with stack_top := sE.stack_top - 1, save_stack := sE.save_stack } :=
        restoreStack_of uB hsvB'
      have hgB' : uB.globals = sE.globals := by simpa using hgB
      have hloB' : uB.locals = sE.locals := by simpa using hloB
      have hcsB' : uB.call_stack = [] := by
        have h0 : callGrows sE.call_stack uB.call_stack := by simpa using hcgB
        rw [hcsE] at h0
        cases hx : uB.call_stack with
        | nil => rfl
        | cons f rest => rw [hx] at h0; cases h0
      cases ha : compileExpr a .Tail (((cE ++ [COp.JumpTrue 0]) ++ segB) ++ [COp.Jump 0])
          uB.restoreStack with
      | error m => rw [ha] at h; simp at h
      | ok rA =>
        obtain ⟨cA, uA⟩ := rA
        rw [ha] at h
        simp only [Except.ok.injEq] at h
        obtain ⟨segA, rfl, hstA, hsvA, hgA, hloA, hcgA, hgeA, htgA, hrelA⟩ :=
          master a .Tail (((cE ++ [COp.JumpTrue 0]) ++ segB) ++ [COp.Jump 0])
            uB.restoreStack cA uA ha
        have hgA' : uA.globals = sE.globals := by
          rw [hgA, hres]
          exact hgB'
        have hloA' : uA.locals = sE.locals := by
          rw [hloA, hres]
          exact hloB'
        have hcsA' : uA.call_stack = [] := by
          have h0 : callGrows uB.restoreStack.call_stack uA.call_stack := hcgA
          rw [hres] at h0
          dsimp only at h0
          rw [hcsB'] at h0
          cases hx : uA.call_stack with
          | nil => rfl
          | cons f rest => rw [hx] at h0; cases h0
        refine ⟨cE, segB, segA, ?_, ?_⟩
        · rw [← h]
          rw [show (((cE ++ [COp.JumpTrue 0]) ++ segB) ++ [COp.Jump 0]) ++ segA =
              cE ++ COp.JumpTrue 0 :: (segB ++ COp.Jump 0 :: segA) from by simp]
          rw [chunkPatch_at cE _ (COp.JumpTrue 0) _ _ rfl]
          dsimp only
          rw [show cE ++ COp.JumpTrue
                ((((cE ++ [COp.JumpTrue 0]) ++ segB) ++ [COp.Jump 0]).length) ::
                (segB ++ COp.Jump 0 :: segA) =
              (cE ++ COp.JumpTrue
                ((((cE ++ [COp.JumpTrue 0]) ++ segB) ++ [COp.Jump 0]).length) ::
                segB) ++ COp.Jump 0 :: segA from by simp]
          rw [chunkPatch_at _ segA (COp.Jump 0) _ _
            (by simp only [List.length_append, List.length_cons, List.length_nil]; omega)]
          dsimp only
          simp only [List.append_assoc, List.cons_append, List.singleton_append,
            List.length_append, List.length_cons, List.length_nil, List.nil_append,
            List.append_right_inj, List.cons.injEq, COp.JumpTrue.injEq, COp.Jump.injEq]
          exact ⟨by omega, by omega, trivial⟩
        · unfold compile
          simp only [compileExpr]
          rw [he]
          dsimp only [chunkEmit, chunkNextAddress, CompilerState.pop, CompilerState.saveStack]
          have hrelA' := hrelA
          simp only [hres, hgB', hloB', hcsB'] at hrelA'
          have hstate1 : (⟨sE.stack_top - 1, (sE.stack_top - 1) :: sE.save_stack,
              sE.globals, sE.locals, sE.call_stack⟩ : CompilerState) =
              ⟨sE.stack_top - 1, (sE.stack_top - 1) :: sE.save_stack,
                sE.globals, sE.locals, []⟩ := by
            rw [hcsE]
          rw [hstate1]
          rw [hrelA' (cE ++ [COp.JumpTrue 0]) ((sE.stack_top - 1) :: sE.save_stack)]
          dsimp only [chunkEmit, chunkNextAddress, CompilerState.restoreStack]
          have hsegA2 : segA.map (relocOp
              ((((cE ++ [COp.JumpTrue 0]) ++ segB) ++ [COp.Jump 0]).length)
              ((cE ++ [COp.JumpTrue 0]).length)) =
              segA.map (relocOp (cE.length + segB.length + 2) (cE.length + 1)) :=
            seg_shift_flex hgeA
              (by simp only [List.length_append, List.length_cons, List.length_nil]; omega)
              (by simp only [List.length_append, List.length_cons, List.length_nil]; omega)
          rw [hsegA2]
          have hrelB' := hrelB
          simp only [CompilerState.pop, CompilerState.saveStack, hcsE] at hrelB'
          have hstate2 : (⟨sE.stack_top - 1, sE.save_stack, uA.globals, uA.locals,
              uA.call_stack⟩ : CompilerState) =
              ⟨sE.stack_top - 1, sE.save_stack, sE.globals, sE.locals, []⟩ := by
            rw [hgA', hloA', hcsA']
          rw [hstate2]
          rw [hrelB' ((cE ++ [COp.JumpTrue 0]) ++
            segA.map (relocOp (cE.length + segB.length + 2) (cE.length + 1)) ++ [COp.Jump 0])
            sE.save_stack]
          dsimp only
          have hsegB2 : segB.map (relocOp ((cE ++ [COp.JumpTrue 0]).length)
              (((cE ++ [COp.JumpTrue 0]) ++
                segA.map (relocOp (cE.length + segB.length + 2) (cE.length + 1)) ++
                [COp.Jump 0]).length)) =
              segB.map (relocOp (cE.length + 1) (cE.length + segA.length + 2)) :=
            seg_shift_flex hgeB
              (by simp only [List.length_append, List.length_cons, List.length_nil]; omega)
              (by
                simp only [List.length_append, List.length_cons, List.length_nil,
                  List.length_map]
                omega)
          rw [hsegB2]
          rw [show ((cE ++ [COp.JumpTrue 0]) ++
              segA.map (relocOp (cE.length + segB.length + 2) (cE.length + 1)) ++
              [COp.Jump 0]) ++ segB.map (relocOp (cE.length + 1)
                (cE.length + segA.length + 2)) =
              cE ++ COp.JumpTrue 0 ::
                (segA.map (relocOp (cE.length + segB.length + 2) (cE.length + 1)) ++
                  COp.Jump 0 :: segB.map (relocOp (cE.length + 1)
                    (cE.length + segA.length + 2))) from by simp]
          rw [chunkPatch_at cE _ (COp.JumpTrue 0) _ _ rfl]
          dsimp only
          rw [show cE ++ COp.JumpTrue (((cE ++ [COp.JumpTrue 0]) ++
                segA.map (relocOp (cE.length + segB.length + 2) (cE.length + 1)) ++
                [COp.Jump 0]).length) ::
              (segA.map (relocOp (cE.length + segB.length + 2) (cE.length + 1)) ++
                COp.Jump 0 :: segB.map (relocOp (cE.length + 1)
                  (cE.length + segA.length + 2))) =
              (cE ++ COp.JumpTrue (((cE ++ [COp.JumpTrue 0]) ++
                segA.map (relocOp (cE.length + segB.length + 2) (cE.length + 1)) ++
                [COp.Jump 0]).length) ::
                segA.map (relocOp (cE.length + segB.length + 2) (cE.length + 1))) ++
              COp.Jump 0 :: segB.map (relocOp (cE.length + 1)
                (cE.length + segA.length + 2)) from by simp]
          rw [chunkPatch_at _ _ (COp.Jump 0) _ _
            (by
              simp only [List.length_append, List.length_cons, List.length_nil,
                List.length_map]
              omega)]
          dsimp only
          simp only [List.append_assoc, List.cons_append, List.singleton_append,
            List.length_append, List.length_cons, List.length_nil, List.length_map,
            List.nil_append, Except.ok.injEq, List.append_right_inj, List.cons.injEq,
            COp.JumpTrue.injEq, COp.Jump.injEq]
          exact ⟨by omega, by omega, trivial⟩

/-- Counterexample to C8 as stated: with a nested `If` as one branch,
the two compilations do not differ *only* in the order of the two branch
bodies with the outer jump targets swapped — the nested branch's own
jump targets are relocated too (`JumpTrue 8, Jump 9` vs
`JumpTrue 6, Jump 7`). -/
theorem if_swap_cex :
    compile (.If (.Const 1) (.If (.Const 1) (.Const 2) (.Const 3)) (.Const 4)) =
      .ok [COp.PushValue (CValue.Number 1), COp.JumpTrue 4,
        COp.PushValue (CValue.Number 4), COp.Jump 9, COp.PushValue (CValue.Number 1),
        COp.JumpTrue 8, COp.PushValue (CValue.Number 3), COp.Jump 9,
        COp.PushValue (CValue.Number 2)] ∧
    compile (.If (.Const 1) (.Const 4) (.If (.Const 1) (.Const 2) (.Const 3))) =
      .ok [COp.PushValue (CValue.Number 1), COp.JumpTrue 8,
        COp.PushValue (CValue.Number 1), COp.JumpTrue 6, COp.PushValue (CValue.Number 3),
        COp.Jump 7, COp.PushValue (CValue.Number 2), COp.Jump 9,
        COp.PushValue (CValue.Number 4)] ∧
    [COp.PushValue (CValue.Number 1), COp.JumpTrue 8, COp.PushValue (CValue.Number 3),
      COp.Jump 9, COp.PushValue (CValue.Number 2)] ≠
    [COp.PushValue (CValue.Number 1), COp.JumpTrue 6, COp.PushValue (CValue.Number 3),
      COp.Jump 7, COp.PushValue (CValue.Number 2)] :=
  ⟨rfl, rfl, by decide⟩

/-- C8 (amended): compiling `if e then a else b` and `if e then b else a`
as whole programs yields chunks made of the same guard code and the same
two body segments in exchanged order, each body relocated by uniformly
shifting its internal code addresses to its new start position, with the
outer `JumpTrue`/`Jump` targets swapped accordingly; one compiles
successfully exactly when the other does. -/
theorem if_swap_relocation_amended (e a b : PExpr) :
    match compile (.If e a b), compile (.If e b a) with
    | .ok L1, .ok L2 => ∃ E B A1 : List COp,
        L1 = E ++ [COp.JumpTrue (E.length + B.length + 2)] ++ B ++
          [COp.Jump (E.length + B.length + 2 + A1.length)] ++ A1 ∧
        L2 = E ++ [COp.JumpTrue (E.length + A1.length + 2)] ++
          A1.map (relocOp (E.length + B.length + 2) (E.length + 1)) ++
          [COp.Jump (E.length + A1.length + 2 + B.length)] ++
          B.map (relocOp (E.length + 1) (E.length + A1.length + 2))
    | .error _, .error _ => True
    | _, _ => False := by
  cases h1 : compile (.If e a b) with
  | ok L1 =>
    obtain ⟨E, B, A1, hdec, h2⟩ := compile_if_swap_ok e a b L1 h1
    rw [h2]
    exact ⟨E, B, A1, hdec, rfl⟩
  | error m =>
    cases h2 : compile (.If e b a) with
    | error m2 => trivial
    | ok L2 =>
      obtain ⟨E, B2, A2, -, h1'⟩ := compile_if_swap_ok e b a L2 h2
      rw [h1] at h1'
      cases h1'

/-! ## The name resolver, from `src/name_analysis.rs`

`name_analysis.rs` defines `Binding`, `BindingTable`, `Capture`,
`CaptureTable`, `Frame` and `CompilerState` textually identically to
`compiler.rs`; the embedding above is shared. The Rust helper
`resolve_names_proc` is inlined at its two call sites (`Proc` and
`LetRec`) so that the recursion stays structural. -/

/-- Capture recipe entries of the nameless AST (`name_analysis.rs`,
`enum Cap`). -/
inductive Cap where
  | Local (k : Nat)
  | Capture (k : Nat)
deriving DecidableEq

/-- The nameless AST (`name_analysis.rs`, `enum Expr`). -/
inductive NExpr where
  | Call (p a : NExpr)
  | Capture (k : Nat)
  | Const (x : Int)
  | Diff (e1 e2 : NExpr)
  | Global (k : Nat)
  | IsZero (e : NExpr)
  | If (guard consq alt : NExpr)
  | Let (rhs body : NExpr)
  | Local (k : Nat)
  | Print (e : NExpr)
  | Proc (body : NExpr) (captures : List Cap)
deriving DecidableEq

/-- `resolve_names_expr` (`name_analysis.rs`): rewrite the named AST
into the nameless AST, resolving every `Var` to `Local`, `Capture` or
`Global`; the first unresolvable reference aborts with
`undefined name: X`. -/
def resolveNamesExpr : PExpr → CompilerState → Except String (NExpr × CompilerState)
  | .Call p a, state =>
    match resolveNamesExpr p state with
    | .error m => .error m
    | .ok (np, s1) =>
      match resolveNamesExpr a s1 with
      | .error m => .error m
      | .ok (na, s2) => .ok (.Call np na, s2.pop.pop.push)
  | .Const x, state => .ok (.Const x, state.push)
  | .Diff e1 e2, state =>
    match resolveNamesExpr e1 state with
    | .error m => .error m
    | .ok (n1, s1) =>
      match resolveNamesExpr e2 s1 with
      | .error m => .error m
      | .ok (n2, s2) => .ok (.Diff n1 n2, s2.pop.pop.push)
  | .If guard consq alt, state =>
    match resolveNamesExpr guard state with
    | .error m => .error m
    | .ok (ng, s1) =>
      match resolveNamesExpr alt (s1.pop.saveStack) with
      | .error m => .error m
      | .ok (na, s2) =>
        match resolveNamesExpr consq s2.restoreStack with
        | .error m => .error m
        | .ok (nc, s3) => .ok (.If ng nc na, s3)
  | .IsZero e, state =>
    match resolveNamesExpr e state with
    | .error m => .error m
    | .ok (ne, s1) => .ok (.IsZero ne, s1.pop.push)
  | .Let var rhs body, state =>
    match resolveNamesExpr rhs state with
    | .error m => .error m
    | .ok (nr, s1) =>
      match resolveNamesExpr body (s1.begin_scope var) with
      | .error m => .error m
      | .ok (nb, s2) => .ok (.Let nr nb, s2.end_scope)
  | .LetRec _ name var _ proc_body let_body, state =>
    match resolveNamesExpr proc_body (state.begin_proc name var) with
    | .error m => .error m
    | .ok (nb, s1) =>
      match s1.end_proc with
      | (captures, s2) =>
        match resolveNamesExpr let_body ((s2.push).begin_scope name) with
        | .error m => .error m
        | .ok (nl, s3) =>
          .ok (.Let (.Proc nb (captures.map
            (fun cp => if cp.is_local then Cap.Local cp.index
                       else Cap.Capture cp.index))) nl, s3.end_scope)
  | .Print e, state =>
    match resolveNamesExpr e state with
    | .error m => .error m
    | .ok (ne, s1) => .ok (.Print ne, s1)
  | .Proc var _ body, state =>
    match resolveNamesExpr body (state.begin_proc "" var) with
    | .error m => .error m
    | .ok (nb, s1) =>
      match s1.end_proc with
      | (captures, s2) =>
        .ok (.Proc nb (captures.map
          (fun cp => if cp.is_local then Cap.Local cp.index
                     else Cap.Capture cp.index)), s2.push)
  | .Var v, state =>
    match state.lookup_local v with
    | some stack_index => .ok (.Local stack_index, state.push)
    | none =>
      match state.lookup_capture v with
      | some (capture_index, s1) => .ok (.Capture capture_index, s1.push)
      | none =>
        match btLookup state.globals v with
        | some stack_index => .ok (.Global stack_index, state.push)
        | none => .error ("undefined name: " ++ v)

/-- `resolve_names` (`name_analysis.rs`): resolve the whole program
from the fresh state; only the nameless expression is kept here. -/
def resolveNames (e : PExpr) : Except String NExpr :=
  match resolveNamesExpr e CompilerState.new with
  | .ok (ne, _) => .ok ne
  | .error m => .error m

/-! ## Spec-side name-visibility cascade

The following definitions follow the specification's words (§4.1 "Name
lookup — cascading" and §4.2), not the source: they track only which
names are visible (current locals, then each enclosing frame's locals
or already-captured names from the innermost outward, then globals),
with no offsets and no abstract stack. They exist to be compared with
the embedded resolver. -/

/-- Spec-side view of one enclosing proc frame: the names of its locals
and of its captures. -/
structure SpecFrame where
  locals : Option (List String)
  captures : List String
deriving DecidableEq

/-- Spec-side view of the resolver state: global names, current local
names, and the enclosing frames (innermost first). -/
structure Scopes where
  globals : List String
  locals : Option (List String)
  frames : List SpecFrame
deriving DecidableEq

/-- The scope state at the start of a program: nothing bound. -/
def Scopes.init : Scopes := ⟨[], none, []⟩

/-- Does an optional local table contain the name? -/
def localsContains (l : Option (List String)) (x : String) : Bool :=
  match l with
  | some t => t.any (fun y => y == x)
  | none => false

/-- Spec-side capture cascade (§4.1 steps 2a-2c): a local of the frame
is captured (recorded) afresh; otherwise an existing capture is reused;
otherwise capture from the next enclosing frame and record it here. -/
def specCapture (x : String) : List SpecFrame → Option (List SpecFrame)
  | [] => none
  | f :: rest =>
    if localsContains f.locals x then
      some ({ f with captures := f.captures ++ [x] } :: rest)
    else if f.captures.any (fun y => y == x) then
      some (f :: rest)
    else
      match specCapture x rest with
      | some rest' => some ({ f with captures := f.captures ++ [x] } :: rest')
      | none => none

/-- Spec-side resolution: walk the expression in the resolver's order
(for an `If`: guard, then alternate, then consequent), threading the
visible names, and fail with the first name that is bound neither as a
local, nor capturable from an enclosing frame, nor as a global. The
error carries just the offending name. -/
def specResolve : PExpr → Scopes → Except String Scopes
  | .Call p a, sc =>
    match specResolve p sc with
    | .error x => .error x
    | .ok sc1 => specResolve a sc1
  | .Const _, sc => .ok sc
  | .Diff e1 e2, sc =>
    match specResolve e1 sc with
    | .error x => .error x
    | .ok sc1 => specResolve e2 sc1
  | .If guard consq alt, sc =>
    match specResolve guard sc with
    | .error x => .error x
    | .ok sc1 =>
      match specResolve alt sc1 with
      | .error x => .error x
      | .ok sc2 => specResolve consq sc2
  | .IsZero e, sc => specResolve e sc
  | .Let var rhs body, sc =>
    match specResolve rhs sc with
    | .error x => .error x
    | .ok sc1 =>
      match specResolve body (match sc1.locals with
        | some t => { sc1 with locals := some (var :: t) }
        | none => { sc1 with globals := var :: sc1.globals }) with
      | .error x => .error x
      | .ok sc2 => .ok (match sc2.locals with
        | some t => { sc2 with locals := some t.tail }
        | none => { sc2 with globals := sc2.globals.tail })
  | .LetRec _ name var _ proc_body let_body, sc =>
    match specResolve proc_body
        { sc with locals := some [var, name],
                  frames := ⟨sc.locals, []⟩ :: sc.frames } with
    | .error x => .error x
    | .ok sc1 =>
      let sc2 : Scopes := match sc1.frames with
        | [] => sc1
        | f :: rest => { sc1 with locals := f.locals, frames := rest }
      match specResolve let_body (match sc2.locals with
          | some t => { sc2 with locals := some (name :: t) }
          | none => { sc2 with globals := name :: sc2.globals }) with
        | .error x => .error x
        | .ok sc3 => .ok (match sc3.locals with
          | some t => { sc3 with locals := some t.tail }
          | none => { sc3 with globals := sc3.globals.tail })
  | .Print e, sc => specResolve e sc
  | .Proc var _ body, sc =>
    match specResolve body
        { sc with locals := some [var, ""],
                  frames := ⟨sc.locals, []⟩ :: sc.frames } with
    | .error x => .error x
    | .ok sc1 =>
      .ok (match sc1.frames with
        | [] => sc1
        | f :: rest => { sc1 with locals := f.locals, frames := rest })
  | .Var x, sc =>
    if localsContains sc.locals x then .ok sc
    else
      match specCapture x sc.frames with
      | some fr => .ok { sc with frames := fr }
      | none =>
        if sc.globals.any (fun y => y == x) then .ok sc
        else .error x

/-- The names of a binding table, newest first. -/
def bindingNames (t : List Binding) : List String :=
  t.map (fun b => b.name)

/-- Spec-side view of a compile-time frame: just the names. -/
def absFrame (f : CFrame) : SpecFrame :=
  ⟨f.locals.map bindingNames, f.captures.map (fun cc => cc.name)⟩

/-- Spec-side view of a resolver state: just the visible names. -/
def absScopes (s : CompilerState) : Scopes :=
  ⟨bindingNames s.globals, s.locals.map bindingNames, s.call_stack.map absFrame⟩

theorem btLookup_isSome (t : List Binding) (x : String) :
    (btLookup t x).isSome = (bindingNames t).any (fun y => y == x) := by
  induction t with
  | nil => rfl
  | cons b rest ih =>
    by_cases hb : (b.name == x) = true
    · simp [btLookup, bindingNames, List.find?_cons, hb]
    · simp only [Bool.not_eq_true] at hb
      simp only [btLookup, bindingNames, List.find?_cons, hb, List.any_cons,
        List.map_cons, Bool.false_or] at ih ⊢
      exact ih

theorem lookupOpt_isSome (l : Option (List Binding)) (x : String) :
    (lookupOpt l x).isSome = localsContains (l.map bindingNames) x := by
  cases l with
  | none => rfl
  | some t => simp [lookupOpt, localsContains, btLookup_isSome]

theorem enumFrom_any (q : CCapture → Bool) (t : List CCapture) : ∀ n : Nat,
    (List.enumFrom n t).any (fun p => q p.2) = t.any q := by
  induction t with
  | nil => intro n; rfl
  | cons a rest ih =>
    intro n
    simp only [List.enumFrom, List.any_cons, ih]

theorem find?_isSome_eq_any {α : Type} (l : List α) (p : α → Bool) :
    (l.find? p).isSome = l.any p := by
  induction l with
  | nil => rfl
  | cons a r ih => cases hp : p a <;> simp [List.find?_cons, hp, List.any_cons, ih]

theorem ctLookup_isSome (t : List CCapture) (x : String) :
    (ctLookup t x).isSome = (t.map (fun cc => cc.name)).any (fun y => y == x) := by
  unfold ctLookup
  have h1 : ∀ o : Option (Nat × CCapture), (o.map (fun p => p.1)).isSome = o.isSome := by
    intro o; cases o <;> rfl
  rw [h1, find?_isSome_eq_any, List.any_reverse]
  rw [show t.enum = List.enumFrom 0 t from rfl,
    enumFrom_any (fun cc => cc.name == x) t 0]
  induction t with
  | nil => rfl
  | cons cc rest ih => simp only [List.any_cons, List.map_cons, ih]

/-- Pushing, popping, saving and restoring the abstract stack leave the
visible names untouched. -/
theorem absScopes_push (s : CompilerState) : absScopes s.push = absScopes s := rfl

theorem absScopes_pop (s : CompilerState) : absScopes s.pop = absScopes s := rfl

theorem absScopes_saveStack (s : CompilerState) :
    absScopes s.saveStack = absScopes s := rfl

theorem absScopes_restoreStack (s : CompilerState) :
    absScopes s.restoreStack = absScopes s := by
  unfold CompilerState.restoreStack
  cases h : s.save_stack <;> rfl

theorem bindingNames_tail (t : List Binding) :
    bindingNames t.tail = (bindingNames t).tail := by
  cases t <;> rfl

/-- `begin_scope` adds the name to the innermost visible table. -/
theorem absScopes_begin_scope (s : CompilerState) (v : String) :
    absScopes (s.begin_scope v) =
      (match (absScopes s).locals with
       | some t => { absScopes s with locals := some (v :: t) }
       | none => { absScopes s with globals := v :: (absScopes s).globals }) := by
  unfold CompilerState.begin_scope
  cases h : s.locals <;> simp [absScopes, h, btPush, bindingNames]

/-- `end_scope` drops the newest name of the innermost visible table. -/
theorem absScopes_end_scope (s : CompilerState) :
    absScopes s.end_scope =
      (match (absScopes s).locals with
       | some t => { absScopes s with locals := some t.tail }
       | none => { absScopes s with globals := (absScopes s).globals.tail }) := by
  unfold CompilerState.end_scope
  cases h : s.locals <;>
    simp [absScopes, h, btPop, bindingNames_tail, bindingNames]

/-- `begin_proc` pushes the current locals as a new frame (with an empty
capture list) and starts a fresh table holding the proc name and the
parameter. -/
theorem absScopes_begin_proc (s : CompilerState) (name var : String) :
    absScopes (s.begin_proc name var) =
      { absScopes s with
          locals := some [var, name],
          frames := ⟨(absScopes s).locals, []⟩ :: (absScopes s).frames } := rfl

/-- `end_proc` restores the innermost frame's locals, if any. -/
theorem absScopes_end_proc (s : CompilerState) :
    absScopes (s.end_proc).2 =
      (match (absScopes s).frames with
       | [] => absScopes s
       | f :: rest => { absScopes s with locals := f.locals, frames := rest }) := by
  unfold CompilerState.end_proc
  cases h : s.call_stack <;> simp [absScopes, h, absFrame]

/-- The compile-time capture cascade and the spec-side name cascade
agree frame by frame: they fail together, and on success the resulting
frame lists are related by `absFrame`. -/
theorem captureFrames_abs (x : String) (fs : List CFrame) :
    match captureFrames x fs, specCapture x (fs.map absFrame) with
    | none, none => True
    | some (_, fs1), some afs => afs = fs1.map absFrame
    | _, _ => False := by
  induction fs with
  | nil => trivial
  | cons f rest ih =>
    simp only [captureFrames, List.map_cons, specCapture]
    cases hl : lookupOpt f.locals x with
    | some k =>
      have hc : localsContains (absFrame f).locals x = true := by
        rw [show (absFrame f).locals = f.locals.map bindingNames from rfl,
          ← lookupOpt_isSome, hl]
        rfl
      rw [if_pos hc]
      simp [ctAddLocal, absFrame]
    | none =>
      have hc : localsContains (absFrame f).locals x = false := by
        rw [show (absFrame f).locals = f.locals.map bindingNames from rfl,
          ← lookupOpt_isSome, hl]
        rfl
      rw [if_neg (by simp [hc])]
      cases hct : ctLookup f.captures x with
      | some idx =>
        have hany : ((absFrame f).captures.any (fun y => y == x)) = true := by
          rw [show (absFrame f).captures = f.captures.map (fun cc => cc.name) from rfl,
            ← ctLookup_isSome, hct]
          rfl
        rw [if_pos hany]
        simp
      | none =>
        have hany : ((absFrame f).captures.any (fun y => y == x)) = false := by
          rw [show (absFrame f).captures = f.captures.map (fun cc => cc.name) from rfl,
            ← ctLookup_isSome, hct]
          rfl
        rw [if_neg (by simp [hany])]
        cases hr : captureFrames x rest with
        | none =>
          rw [hr] at ih
          cases hs : specCapture x (rest.map absFrame) with
          | none => trivial
          | some afs => rw [hs] at ih; exact False.elim ih
        | some p =>
          obtain ⟨outer, rest1⟩ := p
          rw [hr] at ih
          cases hs : specCapture x (rest.map absFrame) with
          | none => rw [hs] at ih; exact False.elim ih
          | some afs =>
            rw [hs] at ih
            simp only at ih
            simp [ctAddCapture, absFrame, ih]

/-- The refinement relation between a resolver outcome and a spec-side
cascade outcome: successes carry states related by `absScopes`,
failures carry the same name (the resolver prefixing it with
`undefined name: `), and mixed outcomes are excluded. -/
def ResRel (r : Except String (NExpr × CompilerState)) (q : Except String Scopes) : Prop :=
  match r, q with
  | .ok (_, s1), .ok sc1 => sc1 = absScopes s1
  | .error m, .error x => m = "undefined name: " ++ x
  | _, _ => False

theorem resRel_cases {r : Except String (NExpr × CompilerState)}
    {q : Except String Scopes} (h : ResRel r q) :
    (∃ m x, r = .error m ∧ q = .error x ∧ m = "undefined name: " ++ x) ∨
    (∃ n s1, r = .ok (n, s1) ∧ q = .ok (absScopes s1)) := by
  cases r with
  | error m =>
    cases q with
    | error x => exact Or.inl ⟨m, x, rfl, rfl, h⟩
    | ok sc => exact False.elim h
  | ok v =>
    cases q with
    | error x => exact False.elim h
    | ok sc =>
      obtain ⟨n, s1⟩ := v
      have hv : sc = absScopes s1 := h
      exact Or.inr ⟨n, s1, rfl, by rw [hv]⟩

/-- The resolver refines the spec-side cascade: from related states the
two walks stay related — same success/failure outcome, related final
states, and on failure the same offending name. -/
theorem resolve_abs (e : PExpr) : ∀ s : CompilerState,
    ResRel (resolveNamesExpr e s) (specResolve e (absScopes s)) := by
  induction e with
  | Const x =>
    intro s
    simp only [resolveNamesExpr, specResolve]
    rfl
  | Diff e1 e2 ih1 ih2 =>
    intro s
    simp only [resolveNamesExpr, specResolve]
    rcases resRel_cases (ih1 s) with ⟨m, x, hr, hq, hm⟩ | ⟨n1, s1, hr, hq⟩
    · rw [hr, hq]; exact hm
    · rw [hr, hq]
      dsimp only
      rcases resRel_cases (ih2 s1) with ⟨m, x, hr2, hq2, hm2⟩ | ⟨n2, s2, hr2, hq2⟩
      · rw [hr2, hq2]; exact hm2
      · rw [hr2, hq2]; rfl
  | IsZero e ih =>
    intro s
    simp only [resolveNamesExpr, specResolve]
    rcases resRel_cases (ih s) with ⟨m, x, hr, hq, hm⟩ | ⟨n1, s1, hr, hq⟩
    · rw [hr, hq]; exact hm
    · rw [hr, hq]; rfl
  | If g c a ihg ihc iha =>
    intro s
    simp only [resolveNamesExpr, specResolve]
    rcases resRel_cases (ihg s) with ⟨m, x, hr, hq, hm⟩ | ⟨ng, s1, hr, hq⟩
    · rw [hr, hq]; exact hm
    · rw [hr, hq]
      dsimp only
      have h2 := iha (s1.pop.saveStack)
      rw [absScopes_saveStack, absScopes_pop] at h2
      rcases resRel_cases h2 with ⟨m, x, hr2, hq2, hm2⟩ | ⟨na, s2, hr2, hq2⟩
      · rw [hr2, hq2]; exact hm2
      · rw [hr2, hq2]
        dsimp only
        have h3 := ihc s2.restoreStack
        rw [absScopes_restoreStack] at h3
        rcases resRel_cases h3 with ⟨m, x, hr3, hq3, hm3⟩ | ⟨nc, s3, hr3, hq3⟩
        · rw [hr3, hq3]; exact hm3
        · rw [hr3, hq3]; rfl
  | Var v =>
    intro s
    simp only [resolveNamesExpr, specResolve]
    cases hll : s.lookup_local v with
    | some k =>
      have hc : localsContains (absScopes s).locals v = true := by
        rw [show (absScopes s).locals = s.locals.map bindingNames from rfl,
          ← lookupOpt_isSome]
        rw [show lookupOpt s.locals v = s.lookup_local v from rfl, hll]
        rfl
      rw [if_pos hc]
      rfl
    | none =>
      have hc : localsContains (absScopes s).locals v = false := by
        rw [show (absScopes s).locals = s.locals.map bindingNames from rfl,
          ← lookupOpt_isSome]
        rw [show lookupOpt s.locals v = s.lookup_local v from rfl, hll]
        rfl
      rw [if_neg (by simp [hc])]
      have hca := captureFrames_abs v s.call_stack
      cases hcf : captureFrames v s.call_stack with
      | none =>
        rw [hcf] at hca
        have hlc : s.lookup_capture v = none := by
          unfold CompilerState.lookup_capture
          cases hx : s.call_stack with
          | nil => rfl
          | cons f r =>
            rw [hx] at hcf
            rw [hcf]
        rw [hlc]
        cases hsc : specCapture v ((absScopes s).frames) with
        | some afs =>
          rw [show (absScopes s).frames = s.call_stack.map absFrame from rfl] at hsc
          rw [hsc] at hca
          exact False.elim hca
        | none =>
          dsimp only
          cases hbl : btLookup s.globals v with
          | some j =>
            have hany : ((absScopes s).globals.any (fun y => y == v)) = true := by
              rw [show (absScopes s).globals = bindingNames s.globals from rfl,
                ← btLookup_isSome, hbl]
              rfl
            rw [if_pos hany]
            rfl
          | none =>
            have hany : ((absScopes s).globals.any (fun y => y == v)) = false := by
              rw [show (absScopes s).globals = bindingNames s.globals from rfl,
                ← btLookup_isSome, hbl]
              rfl
            rw [if_neg (by simp [hany])]
            rfl
      | some p =>
        obtain ⟨idx, fs⟩ := p
        rw [hcf] at hca
        cases hsc : specCapture v ((absScopes s).frames) with
        | none =>
          rw [show (absScopes s).frames = s.call_stack.map absFrame from rfl] at hsc
          rw [hsc] at hca
          exact False.elim hca
        | some afs =>
          rw [show (absScopes s).frames = s.call_stack.map absFrame from rfl] at hsc
          rw [hsc] at hca
          have hafs : afs = fs.map absFrame := hca
          have hlc : s.lookup_capture v = some (idx, { s with call_stack := fs }) := by
            unfold CompilerState.lookup_capture
            cases hx : s.call_stack with
            | nil =>
              rw [hx] at hcf
              simp [captureFrames] at hcf
            | cons f r =>
              rw [hx] at hcf
              rw [hcf]
          rw [hlc]
          dsimp only
          show Scopes.mk (absScopes s).globals (absScopes s).locals afs
              = absScopes (CompilerState.push { s with call_stack := fs })
          rw [hafs]
          rfl
  | Let v rhs body ihr ihb =>
    intro s
    simp only [resolveNamesExpr, specResolve]
    rcases resRel_cases (ihr s) with ⟨m, x, hr, hq, hm⟩ | ⟨nr, s1, hr, hq⟩
    · rw [hr, hq]; exact hm
    · rw [hr, hq]
      dsimp only
      have h2 := ihb (s1.begin_scope v)
      rw [absScopes_begin_scope] at h2
      rcases resRel_cases h2 with ⟨m, x, hr2, hq2, hm2⟩ | ⟨nb, s2, hr2, hq2⟩
      · rw [hr2, hq2]; exact hm2
      · rw [hr2, hq2]
        dsimp only
        show (match (absScopes s2).locals with
          | some t => { absScopes s2 with locals := some t.tail }
          | none => { absScopes s2 with globals := (absScopes s2).globals.tail })
            = absScopes s2.end_scope
        rw [absScopes_end_scope]
  | Print e ih =>
    intro s
    simp only [resolveNamesExpr, specResolve]
    rcases resRel_cases (ih s) with ⟨m, x, hr, hq, hm⟩ | ⟨n1, s1, hr, hq⟩
    · rw [hr, hq]; exact hm
    · rw [hr, hq]; rfl
  | Proc v vt body ih =>
    intro s
    simp only [resolveNamesExpr, specResolve]
    have h1 := ih (s.begin_proc "" v)
    rw [absScopes_begin_proc] at h1
    rcases resRel_cases h1 with ⟨m, x, hr, hq, hm⟩ | ⟨nb, s1, hr, hq⟩
    · rw [hr, hq]; exact hm
    · rw [hr, hq]
      dsimp only
      cases hep : s1.end_proc with
      | mk caps s2 =>
        have hs2 := absScopes_end_proc s1
        rw [hep] at hs2
        dsimp only at hs2
        show (match (absScopes s1).frames with
          | [] => absScopes s1
          | f :: rest => { absScopes s1 with locals := f.locals, frames := rest })
            = absScopes s2.push
        rw [absScopes_push, ← hs2]
  | Call p a ihp iha =>
    intro s
    simp only [resolveNamesExpr, specResolve]
    rcases resRel_cases (ihp s) with ⟨m, x, hr, hq, hm⟩ | ⟨np, s1, hr, hq⟩
    · rw [hr, hq]; exact hm
    · rw [hr, hq]
      dsimp only
      rcases resRel_cases (iha s1) with ⟨m, x, hr2, hq2, hm2⟩ | ⟨na, s2, hr2, hq2⟩
      · rw [hr2, hq2]; exact hm2
      · rw [hr2, hq2]; rfl
  | LetRec rt name v vt pb lb ihp ihl =>
    intro s
    simp only [resolveNamesExpr, specResolve]
    have h1 := ihp (s.begin_proc name v)
    rw [absScopes_begin_proc] at h1
    rcases resRel_cases h1 with ⟨m, x, hr, hq, hm⟩ | ⟨nb, s1, hr, hq⟩
    · rw [hr, hq]; exact hm
    · rw [hr, hq]
      dsimp only
      cases hep : s1.end_proc with
      | mk caps s2 =>
        have hs2 := absScopes_end_proc s1
        rw [hep] at hs2
        dsimp only at hs2
        rw [← hs2]
        have h2 := ihl ((s2.push).begin_scope name)
        rw [absScopes_begin_scope, absScopes_push] at h2
        rcases resRel_cases h2 with ⟨m, x, hr2, hq2, hm2⟩ | ⟨nl, s3, hr2, hq2⟩
        · rw [hr2, hq2]; exact hm2
        · rw [hr2, hq2]
          dsimp only
          show (match (absScopes s3).locals with
            | some t => { absScopes s3 with locals := some t.tail }
            | none => { absScopes s3 with globals := (absScopes s3).globals.tail })
              = absScopes s3.end_scope
          rw [absScopes_end_scope]

/-- C7 counterexample: in `if 1 then a else b` with both `a` and `b`
unbound, the resolver reports `b` — the alternate is resolved before
the consequent, so the reported name is not the first offending
reference in left-to-right order (`a`) — and the message reads
`undefined name: b`, not the quoted form `undefined name "b"`. -/
theorem undefined_name_message_cex :
    resolveNames (.If (.Const 1) (.Var "a") (.Var "b"))
        = .error "undefined name: b"
    ∧ "undefined name: b" ≠ "undefined name \x22b\x22" :=
  ⟨rfl, by decide⟩

/-- C7 (amended): name resolution fails exactly when the spec-side
visibility cascade (current locals, then the enclosing frames from the
innermost outward, then globals) fails; the error is
`undefined name: X` — colon form, not quoted — where `X` is the first
unresolved reference in the resolver's traversal order, which visits an
`If`'s alternate before its consequent; this is the only error the pass
produces, and every program the cascade accepts resolves successfully. -/
theorem name_resolution_errors_amended (e : PExpr) :
    match resolveNames e, specResolve e Scopes.init with
    | .ok _, .ok _ => True
    | .error m, .error x => m = "undefined name: " ++ x
    | _, _ => False := by
  have h := resolve_abs e CompilerState.new
  rw [show absScopes CompilerState.new = Scopes.init from rfl] at h
  unfold resolveNames
  rcases resRel_cases h with ⟨m, x, hr, hq, hm⟩ | ⟨n, s1, hr, hq⟩
  · rw [hr, hq]; exact hm
  · rw [hr, hq]; trivial

/-- C9: capturing a name that is a local of the innermost enclosing
frame consults that frame's locals before its capture table and
unconditionally appends a fresh `FromLocal` entry at the end (its index
is the table's current length); capturing the same local again appends
a second, duplicate entry at the next index; the dedup lookup applies
only when the name is not a local of the frame, in which case the
existing entry's index is reused and the table is unchanged. -/
theorem duplicate_local_captures
    (f g : CFrame) (rest : List CFrame) (x : String) (k i : Nat)
    (hl : lookupOpt f.locals x = some k)
    (hg : lookupOpt g.locals x = none)
    (hc : ctLookup g.captures x = some i) :
    (captureFrames x (f :: rest) =
      some (f.captures.length,
        { f with captures := f.captures ++ [⟨x, true, k⟩] } :: rest))
    ∧ (captureFrames x ({ f with captures := f.captures ++ [⟨x, true, k⟩] } :: rest) =
      some (f.captures.length + 1,
        { f with captures := (f.captures ++ [⟨x, true, k⟩]) ++ [⟨x, true, k⟩] } :: rest))
    ∧ captureFrames x (g :: rest) = some (i, g :: rest) := by
  refine ⟨?_, ?_, ?_⟩
  · simp only [captureFrames, hl, ctAddLocal]
  · have hl2 : lookupOpt ({ f with captures := f.captures ++ [⟨x, true, k⟩] } : CFrame).locals x
        = some k := hl
    simp only [captureFrames, hl2, ctAddLocal, List.length_append, List.length_cons,
      List.length_nil]
  · simp only [captureFrames, hg, hc]

/-- Witness for C9 at a concrete frame: the local `x` is captured twice
with distinct indices 0 and 1 and duplicate entries, while a non-local
`x` with an existing capture entry reuses index 0. -/
theorem duplicate_local_captures_witness :
    (captureFrames "x" [⟨2, some [⟨"x", 0⟩], []⟩] =
      some (0, [⟨2, some [⟨"x", 0⟩], [⟨"x", true, 0⟩]⟩]))
    ∧ (captureFrames "x" [⟨2, some [⟨"x", 0⟩], [⟨"x", true, 0⟩]⟩] =
      some (1, [⟨2, some [⟨"x", 0⟩], [⟨"x", true, 0⟩, ⟨"x", true, 0⟩]⟩]))
    ∧ captureFrames "x" [⟨0, some [], [⟨"x", false, 0⟩]⟩] =
      some (0, [⟨0, some [], [⟨"x", false, 0⟩]⟩]) :=
  duplicate_local_captures ⟨2, some [⟨"x", 0⟩], []⟩ ⟨0, some [], [⟨"x", false, 0⟩]⟩
    [] "x" 0 0 rfl rfl rfl

end Letpl
